import Mathlib

/-!
Verification of the route-geometry core of brensch/passengerprincess.

The Go source is shallowly embedded:
- float64 values become real numbers (exact-real idealisation of the float
  computations, noted per definition);
- Go ints become Lean integers (the values involved stay far below 2^63,
  so wrap-around never occurs on the modelled paths);
- fallible functions return Option / Except, and a run that would panic in
  Go (nil-pointer dereference) is modelled as Option.none;
- polyline strings are byte lists (List Nat, one entry per byte).

Sections follow the source files:
- polyline codec: cmd/api/main.go (encodePolyline / encodeSingleValue) and
  pkg/maps/route.go (DecodePolyline);
- circle meshes: pkg/maps/mesh.go (CreateMesh) and pkg/maps/route.go
  (PolylineToCircles, interpolatePoints, haversineDistance);
- route geometry and ETA: the maps package (distanceToPolyline,
  distanceToSegment, buildPolylineIndex, distanceToPolylineWithIndex,
  calculateETA, the cumulative-profile loop of GetSuperchargersOnRoute,
  the search-result collection loop, GetSuperchargerWithCache).
-/

namespace PassengerPrincess

/-! ## Polyline codec (integer layer)

The encoder (cmd/api/main.go, encodeSingleValue / encodePolyline) and the
decoder (pkg/maps/route.go, DecodePolyline) work on latitude/longitude
values scaled by 1e5 and rounded to integers.  We model that integer layer
first, then wrap it with the scaling/rounding layer.

Bit-level note: Go writes the 5-bit groups with `change |= (b & 0x1f) <<
shift` and tests the continuation bit with `b & 0x20 == 0`.  Successive
groups occupy disjoint bit ranges (every earlier contribution is below
2 ^ shift), so the OR is plain addition; `b & 0x1f` is `b mod 32` and
`b & 0x20 == 0` is `b mod 64 < 32` in two's complement.  The model uses
the arithmetic forms. -/

/-- Go's `^x` (bitwise complement) on int: `-x - 1`. -/
def goNot (x : ℤ) : ℤ := -x - 1

/-- Zig-zag transform from `encodeSingleValue` (cmd/api/main.go):
`inverted = value << 1`, complemented when negative.  The result is
non-negative, so we land in ℕ. -/
def zigzagEncode (v : ℤ) : ℕ :=
  (if v < 0 then goNot (v * 2) else v * 2).toNat

/-- Zig-zag inverse from `DecodePolyline` (pkg/maps/route.go):
odd values map to `^(change >> 1)`, even values to `change >> 1`. -/
def zigzagDecode (c : ℕ) : ℤ :=
  if c % 2 = 1 then goNot ((c / 2 : ℕ) : ℤ) else ((c / 2 : ℕ) : ℤ)

theorem zigzagDecode_zigzagEncode (v : ℤ) : zigzagDecode (zigzagEncode v) = v := by
  unfold zigzagEncode zigzagDecode goNot
  rcases lt_or_le v 0 with hv | hv
  · rw [if_pos hv]
    have h1 : (-(v * 2) - 1).toNat = (2 * (-v - 1) + 1 : ℤ).toNat := by ring_nf
    rw [h1]
    have h2 : ((2 * (-v - 1) + 1 : ℤ)).toNat = 2 * (-v - 1).toNat + 1 := by
      omega
    rw [h2]
    have hodd : (2 * (-v - 1).toNat + 1) % 2 = 1 := by omega
    rw [if_pos hodd]
    have hdiv : (2 * (-v - 1).toNat + 1) / 2 = (-v - 1).toNat := by omega
    rw [hdiv]
    omega
  · rw [if_neg (not_lt.mpr hv)]
    have h1 : (v * 2).toNat = 2 * v.toNat := by omega
    rw [h1]
    have heven : ¬ (2 * v.toNat) % 2 = 1 := by omega
    rw [if_neg heven]
    omega

/-- The chunk loop of `encodeSingleValue`: emit 5-bit groups low-to-high,
each biased by 63, with the 0x20 continuation bit on all but the last. -/
def encodeChunks (z : ℕ) : List ℕ :=
  if h : z < 32 then [z + 63]
  else (z % 32 + 32 + 63) :: encodeChunks (z / 32)
decreasing_by
  exact Nat.div_lt_self (by omega) (by omega)

/-- `encodeSingleValue` (cmd/api/main.go): zig-zag then chunk. -/
def encodeSingleValue (v : ℤ) : List ℕ :=
  encodeChunks (zigzagEncode v)

/-- `encodePolyline` (cmd/api/main.go) on the scaled-integer layer:
delta-encode successive points against the previous point, starting from
(0, 0), and concatenate the per-value chunks (latitude first). -/
def encodeIntPolyline : ℤ → ℤ → List (ℤ × ℤ) → List ℕ
  | _, _, [] => []
  | lastLat, lastLng, (lat, lng) :: rest =>
    encodeSingleValue (lat - lastLat) ++ encodeSingleValue (lng - lastLng) ++
      encodeIntPolyline lat lng rest

/-- One group-accumulation loop of `DecodePolyline` (pkg/maps/route.go):
reads bytes until one has the 0x20 bit clear, returning the accumulated
`change` and the remaining bytes.  `b = int(byte) - 63`; `b & 0x1f` is
modelled as `(b % 32).toNat` and the continuation test `b & 0x20 == 0`
as `b % 64 < 32` (two's complement low bits; see section header). -/
def decodeGroup : List ℕ → ℕ → ℕ → Option (ℕ × List ℕ)
  | [], _, _ => none
  | c :: rest, shift, change =>
    if ((c : ℤ) - 63) % 64 < 32 then
      some (change + ((((c : ℤ) - 63) % 32).toNat) * 2 ^ shift, rest)
    else decodeGroup rest (shift + 5) (change + ((((c : ℤ) - 63) % 32).toNat) * 2 ^ shift)

theorem decodeGroup_length {bytes rest : List ℕ} {shift change v : ℕ}
    (h : decodeGroup bytes shift change = some (v, rest)) :
    rest.length < bytes.length := by
  induction bytes generalizing shift change with
  | nil => simp [decodeGroup] at h
  | cons c t ih =>
    unfold decodeGroup at h
    by_cases hc : ((c : ℤ) - 63) % 64 < 32
    · rw [if_pos hc] at h
      simp only [Option.some.injEq, Prod.mk.injEq] at h
      obtain ⟨-, rfl⟩ := h
      simp
    · rw [if_neg hc] at h
      have := ih h
      simp only [List.length_cons]
      omega

/-- The per-point loop of `DecodePolyline`: while bytes remain, decode a
latitude group then a longitude group, add the zig-zag-decoded deltas to
the running (lat, lng), and emit the point.  A stream ending mid-group is
a malformed-polyline error (`none`). -/
def decodeIntPolyline : ℤ → ℤ → List ℕ → Option (List (ℤ × ℤ))
  | _, _, [] => some []
  | lat, lng, c :: rest =>
    match h1 : decodeGroup (c :: rest) 0 0 with
    | none => none
    | some (latC, rest1) =>
      match h2 : decodeGroup rest1 0 0 with
      | none => none
      | some (lngC, rest2) =>
        let lat' := lat + zigzagDecode latC
        let lng' := lng + zigzagDecode lngC
        match decodeIntPolyline lat' lng' rest2 with
        | none => none
        | some pts => some ((lat', lng') :: pts)
termination_by _ _ bytes => bytes.length
decreasing_by
  have l1 := decodeGroup_length h1
  have l2 := decodeGroup_length h2
  simp only [List.length_cons] at *
  omega

theorem encodeChunks_ne_nil (z : ℕ) : encodeChunks z ≠ [] := by
  unfold encodeChunks
  by_cases h : z < 32 <;> simp [h]

/-- Decoding the chunks of `z` (with any suffix) recovers `z` shifted into
position on top of an accumulator that is below the current bit position. -/
theorem decodeGroup_encodeChunks (z : ℕ) :
    ∀ rest shift change, decodeGroup (encodeChunks z ++ rest) shift change =
      some (change + z * 2 ^ shift, rest) := by
  induction z using Nat.strong_induction_on with
  | _ z ih =>
    intro rest shift change
    unfold encodeChunks
    by_cases h : z < 32
    · simp only [dif_pos h, List.cons_append, List.nil_append]
      unfold decodeGroup
      have hb : ((z + 63 : ℕ) : ℤ) - 63 = (z : ℤ) := by push_cast; ring
      rw [hb]
      have h64 : ((z : ℤ)) % 64 = (z : ℤ) :=
        Int.emod_eq_of_lt (Int.natCast_nonneg z)
          (by exact_mod_cast (show z < 64 by omega))
      have h32 : ((z : ℤ)) % 32 = (z : ℤ) :=
        Int.emod_eq_of_lt (Int.natCast_nonneg z) (by exact_mod_cast h)
      rw [h64, h32, if_pos (show (z : ℤ) < 32 by exact_mod_cast h)]
      simp
    · simp only [dif_neg h, List.cons_append]
      unfold decodeGroup
      have hb : ((z % 32 + 32 + 63 : ℕ) : ℤ) - 63 = ((z % 32 + 32 : ℕ) : ℤ) := by
        push_cast; ring
      rw [hb]
      have hlt : z % 32 + 32 < 64 := by omega
      have h64 : (((z % 32 + 32 : ℕ)) : ℤ) % 64 = ((z % 32 + 32 : ℕ) : ℤ) :=
        Int.emod_eq_of_lt (Int.natCast_nonneg _) (by exact_mod_cast hlt)
      have hnot : ¬ (((z % 32 + 32 : ℕ)) : ℤ) % 64 < 32 := by
        rw [h64]; push_cast; omega
      rw [if_neg hnot]
      have h32 : ((((z % 32 + 32 : ℕ)) : ℤ) % 32).toNat = z % 32 := by
        push_cast
        omega
      rw [h32]
      have hdiv : z / 32 < z := Nat.div_lt_self (by omega) (by omega)
      rw [ih (z / 32) hdiv rest (shift + 5)]
      have hpow : (2 : ℕ) ^ (shift + 5) = 32 * 2 ^ shift := by
        rw [pow_add]; ring
      have harith : change + z % 32 * 2 ^ shift + z / 32 * 2 ^ (shift + 5) =
          change + z * 2 ^ shift := by
        rw [hpow]
        have hz : z % 32 + 32 * (z / 32) = z := Nat.mod_add_div z 32
        calc change + z % 32 * 2 ^ shift + z / 32 * (32 * 2 ^ shift)
            = change + (z % 32 + 32 * (z / 32)) * 2 ^ shift := by ring
          _ = change + z * 2 ^ shift := by rw [hz]
      rw [harith]

theorem decodeGroup_encodeSingleValue (v : ℤ) (rest : List ℕ) :
    decodeGroup (encodeSingleValue v ++ rest) 0 0 = some (zigzagEncode v, rest) := by
  unfold encodeSingleValue
  rw [decodeGroup_encodeChunks]
  simp

/-- Round trip of the integer layer: decoding an encoded delta sequence
recovers the original points, for any starting accumulator. -/
theorem decodeIntPolyline_encodeIntPolyline (path : List (ℤ × ℤ)) :
    ∀ lastLat lastLng,
      decodeIntPolyline lastLat lastLng (encodeIntPolyline lastLat lastLng path) =
        some path := by
  induction path with
  | nil =>
    intro lastLat lastLng
    simp [encodeIntPolyline, decodeIntPolyline]
  | cons p rest ih =>
    intro lastLat lastLng
    obtain ⟨lat, lng⟩ := p
    show decodeIntPolyline lastLat lastLng
      (encodeSingleValue (lat - lastLat) ++ encodeSingleValue (lng - lastLng) ++
        encodeIntPolyline lat lng rest) = some ((lat, lng) :: rest)
    have hg1 : decodeGroup (encodeSingleValue (lat - lastLat) ++
        (encodeSingleValue (lng - lastLng) ++ encodeIntPolyline lat lng rest)) 0 0 =
        some (zigzagEncode (lat - lastLat),
          encodeSingleValue (lng - lastLng) ++ encodeIntPolyline lat lng rest) :=
      decodeGroup_encodeSingleValue _ _
    have hg2 : decodeGroup (encodeSingleValue (lng - lastLng) ++
        encodeIntPolyline lat lng rest) 0 0 =
        some (zigzagEncode (lng - lastLng), encodeIntPolyline lat lng rest) :=
      decodeGroup_encodeSingleValue _ _
    have hne : encodeSingleValue (lat - lastLat) ≠ [] := encodeChunks_ne_nil _
    obtain ⟨c, t, hct⟩ := List.exists_cons_of_ne_nil hne
    rw [List.append_assoc, hct, List.cons_append]
    rw [hct, List.cons_append] at hg1
    unfold decodeIntPolyline
    split
    · next heq => rw [heq] at hg1; exact absurd hg1 (by simp)
    · next latC rest1 heq =>
      rw [heq] at hg1
      simp only [Option.some.injEq, Prod.mk.injEq] at hg1
      obtain ⟨rfl, rfl⟩ := hg1
      split
      · next heq2 => rw [heq2] at hg2; exact absurd hg2 (by simp)
      · next lngC rest2 heq2 =>
        rw [heq2] at hg2
        simp only [Option.some.injEq, Prod.mk.injEq] at hg2
        obtain ⟨rfl, rfl⟩ := hg2
        simp only [zigzagDecode_zigzagEncode]
        have hlat : lastLat + (lat - lastLat) = lat := by ring
        have hlng : lastLng + (lng - lastLng) = lng := by ring
        rw [hlat, hlng, ih lat lng]

/-! ## Polyline codec (degree layer)

`encodePolyline` (cmd/api/main.go) rounds `lat * 1e5` / `lng * 1e5` with
`math.Round` (ties away from zero) before delta-encoding, and
`DecodePolyline` divides the decoded integers by 1e5.  Paths carry exact
rational coordinates in the model. -/

/-- Go's `math.Round`: round half away from zero. -/
def goRound (q : ℚ) : ℤ :=
  if 0 ≤ q then ⌊q + 1 / 2⌋ else -⌊-q + 1 / 2⌋

theorem abs_goRound_sub (q : ℚ) : |(goRound q : ℚ) - q| ≤ 1 / 2 := by
  unfold goRound
  by_cases h : 0 ≤ q
  · rw [if_pos h]
    have h1 := Int.floor_le (q + 1 / 2)
    have h2 := Int.lt_floor_add_one (q + 1 / 2)
    rw [abs_le]
    constructor <;> [linarith; linarith]
  · rw [if_neg h]
    have h1 := Int.floor_le (-q + 1 / 2)
    have h2 := Int.lt_floor_add_one (-q + 1 / 2)
    rw [abs_le]
    push_cast
    constructor <;> [linarith; linarith]

/-- `encodePolyline` (cmd/api/main.go): scale each coordinate by 1e5,
round, delta-encode from (0, 0). -/
def encodePolyline (path : List (ℚ × ℚ)) : List ℕ :=
  encodeIntPolyline 0 0
    (path.map fun p => (goRound (p.1 * 100000), goRound (p.2 * 100000)))

/-- `DecodePolyline` (pkg/maps/route.go) at the degree layer: decode the
integer points and divide by 1e5. -/
def decodePolylineQ (bytes : List ℕ) : Option (List (ℚ × ℚ)) :=
  (decodeIntPolyline 0 0 bytes).map
    (List.map fun p => ((p.1 : ℚ) / 100000, (p.2 : ℚ) / 100000))

/-- C1.  Decoding the string produced by encoding any path yields a path of
the same length whose coordinates agree with the original to within 1e-5
degrees (the rounding error of the 1e5 scaling is at most half a unit),
and the empty path encodes to the empty string. -/
theorem decode_encode_roundTrip :
    (∀ path : List (ℚ × ℚ), ∃ q : List (ℚ × ℚ),
      decodePolylineQ (encodePolyline path) = some q ∧
        List.Forall₂ (fun a b : ℚ × ℚ =>
          |a.1 - b.1| ≤ 1 / 100000 ∧ |a.2 - b.2| ≤ 1 / 100000) q path) ∧
      encodePolyline [] = [] := by
  constructor
  · intro path
    refine ⟨(path.map fun p => (goRound (p.1 * 100000), goRound (p.2 * 100000))).map
      (fun p => ((p.1 : ℚ) / 100000, (p.2 : ℚ) / 100000)), ?_, ?_⟩
    · unfold decodePolylineQ encodePolyline
      rw [decodeIntPolyline_encodeIntPolyline]
      rfl
    · rw [List.map_map]
      induction path with
      | nil => exact List.Forall₂.nil
      | cons p rest ih =>
        refine List.Forall₂.cons ⟨?_, ?_⟩ ih
        · have h := abs_goRound_sub (p.1 * 100000)
          have key : |(goRound (p.1 * 100000) : ℚ) / 100000 - p.1| =
              |(goRound (p.1 * 100000) : ℚ) - p.1 * 100000| / 100000 := by
            rw [← abs_of_pos (show (0:ℚ) < 100000 by norm_num), ← abs_div]
            congr 1
            field_simp
            ring
          simp only [Function.comp]
          rw [key]
          rw [div_le_iff₀ (by norm_num : (0:ℚ) < 100000)]
          calc |(goRound (p.1 * 100000) : ℚ) - p.1 * 100000| ≤ 1 / 2 := h
            _ ≤ 1 / 100000 * 100000 := by norm_num
        · have h := abs_goRound_sub (p.2 * 100000)
          have key : |(goRound (p.2 * 100000) : ℚ) / 100000 - p.2| =
              |(goRound (p.2 * 100000) : ℚ) - p.2 * 100000| / 100000 := by
            rw [← abs_of_pos (show (0:ℚ) < 100000 by norm_num), ← abs_div]
            congr 1
            field_simp
            ring
          simp only [Function.comp]
          rw [key]
          rw [div_le_iff₀ (by norm_num : (0:ℚ) < 100000)]
          calc |(goRound (p.2 * 100000) : ℚ) - p.2 * 100000| ≤ 1 / 2 := h
            _ ≤ 1 / 100000 * 100000 := by norm_num
  · rfl

/-! ## Search-phase result collection

`GetSuperchargersOnRoute` (part of the maps package) runs one goroutine
per search circle and collects the per-circle results from a channel: on
the first received error it cancels the context and returns `nil, err`,
discarding the `seenPlaceIDs` accumulated so far; otherwise it adds each
returned place ID to the `seenPlaceIDs` set.  The channel delivers the
per-circle results in some arrival order; the collection loop below is
that loop, parametric in the received order. -/

/-- Insert a place ID into the `seenPlaceIDs` set (Go map used as a set:
insertion is idempotent, first occurrence fixes nothing else). -/
def insertID (acc : List String) (id : String) : List String :=
  if id ∈ acc then acc else acc ++ [id]

/-- Add all of one circle's place IDs to the set. -/
def insertIDs (acc : List String) (ids : List String) : List String :=
  ids.foldl insertID acc

/-- The collection loop of the search phase: fold over the received
per-circle results; the first error aborts with that error (returning no
IDs), successes merge into the accumulated ID set. -/
def collectSearchResults (e : Type) : List (Except e (List String)) → List String →
    Except e (List String)
  | [], acc => Except.ok acc
  | Except.error err :: _, _ => Except.error err
  | Except.ok places :: rest, acc => collectSearchResults e rest (insertIDs acc places)

/-- C2.  If one of the concurrent per-circle searches fails with a provider
error (and it is the only failure), the search phase returns exactly that
error — an `Except.error` carries no identity set, so entities gathered
from circles that succeeded earlier in the arrival order are discarded. -/
theorem searchPhase_failFast {e : Type} (results : List (Except e (List String)))
    (err : e) (acc : List String)
    (hmem : Except.error err ∈ results)
    (honly : ∀ err', Except.error err' ∈ results → err' = err) :
    collectSearchResults e results acc = Except.error err := by
  induction results generalizing acc with
  | nil => simp at hmem
  | cons r rest ih =>
    cases r with
    | error e0 =>
      have : e0 = err := honly e0 (List.mem_cons_self _ _)
      rw [this]
      rfl
    | ok places =>
      have hmem' : Except.error err ∈ rest := by
        rcases List.mem_cons.mp hmem with h | h
        · exact absurd h (by simp)
        · exact h
      show collectSearchResults e rest (insertIDs acc places) = Except.error err
      exact ih (insertIDs acc places) hmem'
        (fun e' he' => honly e' (List.mem_cons_of_mem _ he'))

/-- Witness for C2 at a concrete arrival order: the third of five circle
searches fails, two earlier ones succeeded; the phase returns the error. -/
theorem searchPhase_failFast_witness :
    collectSearchResults String
      [Except.ok ["sc1", "sc2"], Except.ok ["sc2", "sc3"],
        Except.error "provider quota exceeded", Except.ok ["sc4"], Except.ok []]
      [] = Except.error "provider quota exceeded" := by
  apply searchPhase_failFast
  · simp
  · intro e' he'
    simp at he'
    exact he'

/-! ## Real-valued geometry primitives

Shared by the mesh generator, the polyline coverage generator, the
spatial index, and the ETA estimator.  float64 arithmetic is idealised as
exact real arithmetic. -/

/-- Go's `int(x)` conversion from float64: truncation toward zero. -/
noncomputable def goTrunc (x : ℝ) : ℤ :=
  if 0 ≤ x then ⌊x⌋ else -⌊-x⌋

theorem goTrunc_of_nonneg {x : ℝ} (h : 0 ≤ x) : goTrunc x = ⌊x⌋ := if_pos h

theorem goTrunc_intCast (n : ℤ) : goTrunc (n : ℝ) = n := by
  unfold goTrunc
  by_cases h : (0 : ℝ) ≤ (n : ℝ)
  · rw [if_pos h, Int.floor_intCast]
  · rw [if_neg h, ← Int.cast_neg, Int.floor_intCast, neg_neg]

/-- `math.MaxFloat64`, the initial minimum in the polyline scans. -/
noncomputable def maxFloat64 : ℝ := 1.7976931348623157 * 10 ^ 308

/-- A geographic point; Go struct `Center` of the maps package. -/
structure Center where
  Latitude : ℝ
  Longitude : ℝ

instance : Inhabited Center := ⟨⟨0, 0⟩⟩

/-- A search circle; Go struct `Circle` of the maps package. -/
structure Circle where
  Center : Center
  Radius : ℝ

/-- Go's `math.Atan2(y, x)` (exact-real idealisation). -/
noncomputable def atan2 (y x : ℝ) : ℝ :=
  if 0 < x then Real.arctan (y / x)
  else if x < 0 then
    (if 0 ≤ y then Real.arctan (y / x) + Real.pi else Real.arctan (y / x) - Real.pi)
  else
    (if 0 < y then Real.pi / 2 else if y < 0 then -(Real.pi / 2) else 0)

theorem arctan_nonneg_of_nonneg {t : ℝ} (ht : 0 ≤ t) : 0 ≤ Real.arctan t := by
  have := Real.arctan_strictMono.monotone ht
  rwa [Real.arctan_zero] at this

theorem atan2_nonneg_of_nonneg {y x : ℝ} (hy : 0 ≤ y) (hx : 0 ≤ x) :
    0 ≤ atan2 y x := by
  unfold atan2
  rcases lt_or_eq_of_le hx with hx' | hx'
  · rw [if_pos hx']
    exact arctan_nonneg_of_nonneg (div_nonneg hy hx'.le)
  · subst hx'
    rw [if_neg (lt_irrefl 0), if_neg (lt_irrefl 0)]
    rcases lt_or_eq_of_le hy with hy' | hy'
    · rw [if_pos hy']
      positivity
    · subst hy'
      rw [if_neg (lt_irrefl 0), if_neg (lt_irrefl 0)]

theorem atan2_le_pi_div_two_of_nonneg {y x : ℝ} (hy : 0 ≤ y) (hx : 0 ≤ x) :
    atan2 y x ≤ Real.pi / 2 := by
  unfold atan2
  rcases lt_or_eq_of_le hx with hx' | hx'
  · rw [if_pos hx']
    exact (Real.arctan_lt_pi_div_two _).le
  · subst hx'
    rw [if_neg (lt_irrefl 0), if_neg (lt_irrefl 0)]
    rcases lt_or_eq_of_le hy with hy' | hy'
    · rw [if_pos hy']
    · subst hy'
      rw [if_neg (lt_irrefl 0), if_neg (lt_irrefl 0)]
      positivity

theorem atan2_pos_of_pos_of_nonneg {y x : ℝ} (hy : 0 < y) (hx : 0 ≤ x) :
    0 < atan2 y x := by
  unfold atan2
  rcases lt_or_eq_of_le hx with hx' | hx'
  · rw [if_pos hx']
    have := Real.arctan_strictMono (div_pos hy hx')
    rwa [Real.arctan_zero] at this
  · subst hx'
    rw [if_neg (lt_irrefl 0), if_neg (lt_irrefl 0), if_pos hy]
    positivity

/-- The haversine `a` term of `haversineDistance` (pkg/maps/route.go). -/
noncomputable def havA (p1 p2 : Center) : ℝ :=
  let lat1 := p1.Latitude * Real.pi / 180
  let lon1 := p1.Longitude * Real.pi / 180
  let lat2 := p2.Latitude * Real.pi / 180
  let lon2 := p2.Longitude * Real.pi / 180
  let dLat := lat2 - lat1
  let dLon := lon2 - lon1
  Real.sin (dLat / 2) * Real.sin (dLat / 2) +
    Real.cos lat1 * Real.cos lat2 * (Real.sin (dLon / 2) * Real.sin (dLon / 2))

/-- `haversineDistance` (pkg/maps/route.go): great-circle distance on a
sphere of radius `earthRadiusMeters = 6371000`. -/
noncomputable def haversineDistance (p1 p2 : Center) : ℝ :=
  6371000 * (2 * atan2 (Real.sqrt (havA p1 p2)) (Real.sqrt (1 - havA p1 p2)))

theorem haversineDistance_nonneg (p1 p2 : Center) : 0 ≤ haversineDistance p1 p2 := by
  unfold haversineDistance
  have h := atan2_nonneg_of_nonneg (Real.sqrt_nonneg (havA p1 p2))
    (Real.sqrt_nonneg (1 - havA p1 p2))
  positivity

theorem haversineDistance_le (p1 p2 : Center) :
    haversineDistance p1 p2 ≤ 6371000 * Real.pi := by
  unfold haversineDistance
  have h := atan2_le_pi_div_two_of_nonneg (Real.sqrt_nonneg (havA p1 p2))
    (Real.sqrt_nonneg (1 - havA p1 p2))
  nlinarith [Real.pi_pos]

theorem haversineDistance_lt_maxFloat64 (p1 p2 : Center) :
    haversineDistance p1 p2 < maxFloat64 := by
  have h1 := haversineDistance_le p1 p2
  have h2 : Real.pi < 3.15 := by
    have := Real.pi_lt_315
    linarith
  have h3 : (6371000 : ℝ) * Real.pi < 6371000 * 3.15 := by
    have : (0 : ℝ) < 6371000 := by norm_num
    exact (mul_lt_mul_left this).mpr h2
  unfold maxFloat64
  calc haversineDistance p1 p2 ≤ 6371000 * Real.pi := h1
    _ < 6371000 * 3.15 := h3
    _ < 1.7976931348623157 * 10 ^ 308 := by norm_num

theorem haversineDistance_pos {p1 p2 : Center} (h : 0 < havA p1 p2) :
    0 < haversineDistance p1 p2 := by
  unfold haversineDistance
  have hs : 0 < Real.sqrt (havA p1 p2) := Real.sqrt_pos.mpr h
  have := atan2_pos_of_pos_of_nonneg hs (Real.sqrt_nonneg (1 - havA p1 p2))
  positivity

/-! ## CreateMesh (pkg/maps/mesh.go)

The Go loops step float accumulators (`y += dy`, `x += dx`) from 0 (or the
odd-row offset); in exact reals row `j` sits at `j * dy` and the `y <=
heightMeters` loop admits exactly `floor (heightMeters / dy) + 1` rows when
`heightMeters ≥ 0` and none otherwise (`dy > 0` because the radius guard
has passed), and likewise for the columns of each row. -/

open Classical

/-- Number of iterations of a `for v := offset; v <= limit; v += step` loop
with positive `step`, as a function of the exact-real quantities. -/
noncomputable def goLoopCount (offset limit step : ℝ) : ℕ :=
  if limit < offset then 0 else (⌊(limit - offset) / step⌋ + 1).toNat

/-- The `metersPerDegreeLon` of `CreateMesh`, including its zero guard. -/
noncomputable def meshMetersPerDegreeLon (latMin latMax : ℝ) : ℝ :=
  if 111320 * Real.cos ((latMin + latMax) / 2 * Real.pi / 180) = 0 then 111320
  else 111320 * Real.cos ((latMin + latMax) / 2 * Real.pi / 180)

/-- Odd rows are shifted right by half the horizontal spacing
(`currentXOffset` in the CreateMesh loop). -/
noncomputable def meshRowOffset (dx : ℝ) (row : ℕ) : ℝ :=
  if row % 2 ≠ 0 then dx / 2 else 0

/-- The circle list laid out by CreateMesh's nested loops: rows at
`row * dy` for `dy = r * sqrt 3 * sqrt 3 / 2`, columns at the row offset
plus `i * dx` for `dx = r * sqrt 3`, each converted back to degrees. -/
noncomputable def meshList (latMin latMax lonMin lonMax : ℝ) (radius : ℤ) : List Circle :=
  (List.range (goLoopCount 0 ((latMax - latMin) * 111320)
      ((radius : ℝ) * Real.sqrt 3 * Real.sqrt 3 / 2))).flatMap fun (row : ℕ) =>
    (List.range (goLoopCount (meshRowOffset ((radius : ℝ) * Real.sqrt 3) row)
        ((lonMax - lonMin) * meshMetersPerDegreeLon latMin latMax)
        ((radius : ℝ) * Real.sqrt 3))).map fun (i : ℕ) =>
      ⟨⟨latMin + ((row : ℝ) * ((radius : ℝ) * Real.sqrt 3 * Real.sqrt 3 / 2)) / 111320,
        lonMin + (meshRowOffset ((radius : ℝ) * Real.sqrt 3) row +
          (i : ℝ) * ((radius : ℝ) * Real.sqrt 3)) / meshMetersPerDegreeLon latMin latMax⟩,
        (radius : ℝ)⟩

/-- `CreateMesh` (pkg/maps/mesh.go): reject a non-positive radius, then lay
hexagonal-covering circle centers over the box. -/
noncomputable def CreateMesh (latMin latMax lonMin lonMax : ℝ) (radius : ℤ) :
    Option (List Circle) :=
  if radius ≤ 0 then none
  else some (meshList latMin latMax lonMin lonMax radius)

/-- The local planar metric CreateMesh works in: latitude and longitude
differences scaled by the meters-per-degree factors of the box. -/
noncomputable def meshPlanarDist (latMin latMax : ℝ) (p q : Center) : ℝ :=
  Real.sqrt (((p.Latitude - q.Latitude) * 111320) ^ 2 +
    ((p.Longitude - q.Longitude) * meshMetersPerDegreeLon latMin latMax) ^ 2)

theorem mem_meshList {latMin latMax lonMin lonMax : ℝ} {radius : ℤ} {row i : ℕ}
    (hrow : row < goLoopCount 0 ((latMax - latMin) * 111320)
      ((radius : ℝ) * Real.sqrt 3 * Real.sqrt 3 / 2))
    (hi : i < goLoopCount (meshRowOffset ((radius : ℝ) * Real.sqrt 3) row)
      ((lonMax - lonMin) * meshMetersPerDegreeLon latMin latMax)
      ((radius : ℝ) * Real.sqrt 3)) :
    (⟨⟨latMin + ((row : ℝ) * ((radius : ℝ) * Real.sqrt 3 * Real.sqrt 3 / 2)) / 111320,
      lonMin + (meshRowOffset ((radius : ℝ) * Real.sqrt 3) row +
        (i : ℝ) * ((radius : ℝ) * Real.sqrt 3)) / meshMetersPerDegreeLon latMin latMax⟩,
      (radius : ℝ)⟩ : Circle) ∈ meshList latMin latMax lonMin lonMax radius := by
  unfold meshList
  rw [List.mem_flatMap]
  refine ⟨row, List.mem_range.mpr hrow, ?_⟩
  rw [List.mem_map]
  exact ⟨i, List.mem_range.mpr hi, rfl⟩

theorem goLoopCount_zero_zero (step : ℝ) : goLoopCount 0 0 step = 1 := by
  unfold goLoopCount
  rw [if_neg (by norm_num), sub_zero, zero_div]
  norm_num

theorem goLoopCount_pos {limit step : ℝ} (h : 0 ≤ limit) (hs : 0 < step) :
    0 < goLoopCount 0 limit step := by
  unfold goLoopCount
  rw [if_neg (not_lt.mpr h), sub_zero]
  have : (0 : ℤ) ≤ ⌊limit / step⌋ := Int.floor_nonneg.mpr (by positivity)
  omega

theorem meshMetersPerDegreeLon_pos {latMin latMax : ℝ}
    (h1 : -90 ≤ latMin) (h2 : latMax ≤ 90) (h3 : latMin ≤ latMax) :
    0 < meshMetersPerDegreeLon latMin latMax := by
  unfold meshMetersPerDegreeLon
  by_cases hz : 111320 * Real.cos ((latMin + latMax) / 2 * Real.pi / 180) = 0
  · rw [if_pos hz]; norm_num
  · rw [if_neg hz]
    have hcos : 0 ≤ Real.cos ((latMin + latMax) / 2 * Real.pi / 180) := by
      apply Real.cos_nonneg_of_mem_Icc
      have hpi := Real.pi_pos
      rw [Set.mem_Icc]
      have ha : (0:ℝ) ≤ ((latMin + latMax) / 2 + 90) * Real.pi := by
        apply mul_nonneg _ hpi.le
        linarith
      have hb : (0:ℝ) ≤ (90 - (latMin + latMax) / 2) * Real.pi := by
        apply mul_nonneg _ hpi.le
        linarith
      constructor
      · nlinarith
      · nlinarith
    rcases lt_or_eq_of_le hcos with hc | hc
    · positivity
    · exact absurd (by rw [← hc]; ring) hz

theorem mesh_dy_pos : (0 : ℝ) < ((1000 : ℤ) : ℝ) * Real.sqrt 3 * Real.sqrt 3 / 2 := by
  rw [mul_assoc, Real.mul_self_sqrt (by norm_num : (0:ℝ) ≤ 3)]
  norm_num

theorem mesh_dx_pos : (0 : ℝ) < ((1000 : ℤ) : ℝ) * Real.sqrt 3 := by
  have h3 : 0 < Real.sqrt 3 := Real.sqrt_pos.mpr (by norm_num)
  positivity

/-- C7.  A degenerate point box yields exactly one circle, centered exactly
at the given point, for every real latitude and longitude; and every
zero-width or zero-height box with WGS84-range latitudes yields at least
one circle. -/
theorem createMesh_degenerate :
    (∀ lat lon : ℝ, CreateMesh lat lat lon lon 1000 =
      some [⟨⟨lat, lon⟩, 1000⟩]) ∧
    (∀ latMin latMax lonMin lonMax : ℝ, -90 ≤ latMin → latMax ≤ 90 →
      latMin ≤ latMax → lonMin ≤ lonMax → (latMin = latMax ∨ lonMin = lonMax) →
      ∃ l, CreateMesh latMin latMax lonMin lonMax 1000 = some l ∧ l ≠ []) := by
  constructor
  · intro lat lon
    unfold CreateMesh
    rw [if_neg (by norm_num)]
    have hmesh : meshList lat lat lon lon 1000 = [⟨⟨lat, lon⟩, 1000⟩] := by
      unfold meshList
      have hh : (lat - lat) * 111320 = (0 : ℝ) := by ring
      have hw : (lon - lon) * meshMetersPerDegreeLon lat lat = (0 : ℝ) := by ring
      rw [hh, hw, goLoopCount_zero_zero]
      have hr1 : List.range 1 = [0] := by decide
      rw [hr1]
      have hoff : meshRowOffset (((1000 : ℤ) : ℝ) * Real.sqrt 3) 0 = 0 := by
        unfold meshRowOffset
        norm_num
      simp only [List.flatMap_cons, List.flatMap_nil, List.append_nil, hoff,
        goLoopCount_zero_zero, hr1, List.map_cons, List.map_nil]
      norm_num
    rw [hmesh]
  · intro latMin latMax lonMin lonMax h1 h2 h3 h4 _hdeg
    have hmpd := meshMetersPerDegreeLon_pos h1 h2 h3
    refine ⟨meshList latMin latMax lonMin lonMax 1000, ?_, ?_⟩
    · unfold CreateMesh
      rw [if_neg (by norm_num)]
    · have hrow : 0 < goLoopCount 0 ((latMax - latMin) * 111320)
          (((1000 : ℤ) : ℝ) * Real.sqrt 3 * Real.sqrt 3 / 2) :=
        goLoopCount_pos (by nlinarith) mesh_dy_pos
      have hoff : meshRowOffset (((1000 : ℤ) : ℝ) * Real.sqrt 3) 0 = 0 := by
        unfold meshRowOffset
        norm_num
      have hcol : 0 < goLoopCount (meshRowOffset (((1000 : ℤ) : ℝ) * Real.sqrt 3) 0)
          ((lonMax - lonMin) * meshMetersPerDegreeLon latMin latMax)
          (((1000 : ℤ) : ℝ) * Real.sqrt 3) := by
        rw [hoff]
        exact goLoopCount_pos (by nlinarith) mesh_dx_pos
      exact List.ne_nil_of_mem (mem_meshList hrow hcol)

/-- Witness for C7: a concrete degenerate point box and a concrete
zero-height box. -/
theorem createMesh_degenerate_witness :
    CreateMesh 37.5 37.5 (-122) (-122) 1000 = some [⟨⟨37.5, -122⟩, 1000⟩] ∧
      ∃ l, CreateMesh 0 0 3 3 1000 = some l ∧ l ≠ [] :=
  ⟨createMesh_degenerate.1 37.5 (-122),
    createMesh_degenerate.2 0 0 3 3 (by norm_num) (by norm_num) le_rfl
      (by norm_num) (Or.inl rfl)⟩

/-- C3 counterexample.  For the box with symmetric latitudes of planar
height 1400 m, degenerate width, and radius 1000, CreateMesh emits a single
row of one circle at the bottom edge; the top edge of the box is 1400 m
from that only center, beyond the radius.  The claim that every point of
the box is within the radius of some center is therefore false. -/
theorem coverBoundingBox_gap :
    ¬ (∀ p : Center,
      -(700 / 111320) ≤ p.Latitude → p.Latitude ≤ 700 / 111320 →
      (5 : ℝ) ≤ p.Longitude → p.Longitude ≤ 5 →
      ∃ l, CreateMesh (-(700 / 111320)) (700 / 111320) 5 5 1000 = some l ∧
        ∃ c ∈ l, meshPlanarDist (-(700 / 111320)) (700 / 111320) p c.Center ≤ 1000) := by
  have hmpdv : meshMetersPerDegreeLon (-(700 / 111320)) (700 / 111320) = 111320 := by
    unfold meshMetersPerDegreeLon
    have harg : (((-(700 / 111320) : ℝ)) + 700 / 111320) / 2 * Real.pi / 180 = 0 := by
      ring
    rw [harg, Real.cos_zero, mul_one]
    rw [if_neg (by norm_num)]
  have hdy : ((1000 : ℤ) : ℝ) * Real.sqrt 3 * Real.sqrt 3 / 2 = 1500 := by
    rw [mul_assoc, Real.mul_self_sqrt (by norm_num : (0:ℝ) ≤ 3)]
    norm_num
  have hmesh : CreateMesh (-(700 / 111320)) (700 / 111320) 5 5 1000 =
      some [⟨⟨-(700 / 111320), 5⟩, 1000⟩] := by
    unfold CreateMesh
    rw [if_neg (by norm_num)]
    have hlist : meshList (-(700 / 111320)) (700 / 111320) 5 5 1000 =
        [⟨⟨-(700 / 111320), 5⟩, 1000⟩] := by
      unfold meshList
      have hh : ((700 / 111320 : ℝ) - (-(700 / 111320))) * 111320 = 1400 := by
        norm_num
      have hwz : ((5 : ℝ) - 5) * meshMetersPerDegreeLon (-(700 / 111320)) (700 / 111320) = 0 := by
        ring
      rw [hh, hwz, hdy]
      have hrow : goLoopCount 0 1400 1500 = 1 := by
        unfold goLoopCount
        rw [if_neg (by norm_num), sub_zero]
        have hfl : ⌊(1400 : ℝ) / 1500⌋ = 0 := by
          rw [Int.floor_eq_zero_iff]
          constructor <;> norm_num
        rw [hfl]
        rfl
      rw [hrow]
      have hr1 : List.range 1 = [0] := by decide
      rw [hr1]
      have hoff : meshRowOffset (((1000 : ℤ) : ℝ) * Real.sqrt 3) 0 = 0 := by
        unfold meshRowOffset
        norm_num
      simp only [List.flatMap_cons, List.flatMap_nil, List.append_nil, hoff,
        goLoopCount_zero_zero, hr1, List.map_cons, List.map_nil, hdy]
      norm_num
    rw [hlist]
  intro hclaim
  obtain ⟨l, hl, c, hcl, hdist⟩ :=
    hclaim ⟨700 / 111320, 5⟩ (by norm_num) le_rfl le_rfl le_rfl
  rw [hmesh] at hl
  have hl' : l = [⟨⟨-(700 / 111320), 5⟩, 1000⟩] := (Option.some.inj hl).symm
  rw [hl'] at hcl
  have hc : c = ⟨⟨-(700 / 111320), 5⟩, 1000⟩ := by
    simpa using hcl
  rw [hc] at hdist
  unfold meshPlanarDist at hdist
  have hlat : (((700 / 111320 : ℝ)) - (-(700 / 111320))) * 111320 = 1400 := by
    norm_num
  simp only [hc] at hdist
  have hval : (((700 / 111320 : ℝ) - (-(700 / 111320))) * 111320) ^ 2 +
      (((5 : ℝ) - 5) * meshMetersPerDegreeLon (-(700 / 111320)) (700 / 111320)) ^ 2 =
      1400 ^ 2 := by
    rw [hlat]
    ring
  rw [hval] at hdist
  have : Real.sqrt (1400 ^ 2) = 1400 := by
    rw [Real.sqrt_sq (by norm_num : (0:ℝ) ≤ 1400)]
  rw [this] at hdist
  linarith

/-- In a row of centers at multiples of `dxv` on `[0, m * dxv]` (even rows)
and at `dxv / 2` plus multiples (odd rows, one fewer center), every
`x ∈ [0, m * dxv]` has an even-row center at some distance `aE` and an
odd-row center at distance `aO` with `aE + aO = dxv / 2`. -/
theorem rowNearestCenters (dxv w x : ℝ) (m : ℕ) (hm : 1 ≤ m) (hdx : 0 < dxv)
    (hw : w = m * dxv) (hx1 : 0 ≤ x) (hx2 : x ≤ w) :
    ∃ (iE iO : ℕ) (aE aO : ℝ), iE ≤ m ∧ iO + 1 ≤ m ∧
      0 ≤ aE ∧ 0 ≤ aO ∧ aE + aO = dxv / 2 ∧
      (x - iE * dxv) ^ 2 = aE ^ 2 ∧ (x - (dxv / 2 + iO * dxv)) ^ 2 = aO ^ 2 := by
  have hxd : 0 ≤ x / dxv := div_nonneg hx1 hdx.le
  have hnn : 0 ≤ ⌊x / dxv⌋ := Int.floor_nonneg.mpr hxd
  have hcast : ((⌊x / dxv⌋.toNat : ℕ) : ℝ) = ((⌊x / dxv⌋ : ℤ) : ℝ) := by
    exact_mod_cast congrArg (fun z : ℤ => (z : ℝ)) (Int.toNat_of_nonneg hnn)
  have hf1 : 0 ≤ x - (⌊x / dxv⌋.toNat : ℝ) * dxv := by
    rw [hcast]
    have h := mul_le_mul_of_nonneg_right (Int.floor_le (x / dxv)) hdx.le
    rw [div_mul_cancel₀ x hdx.ne'] at h
    linarith
  have hf2 : x - (⌊x / dxv⌋.toNat : ℝ) * dxv < dxv := by
    rw [hcast]
    have h := mul_lt_mul_of_pos_right (Int.lt_floor_add_one (x / dxv)) hdx
    rw [div_mul_cancel₀ x hdx.ne'] at h
    push_cast at h ⊢
    nlinarith
  have hi0m : ⌊x / dxv⌋.toNat ≤ m := by
    have hdm : x / dxv ≤ m := (div_le_iff₀ hdx).mpr (by rw [hw] at hx2; linarith)
    have h2 : ⌊x / dxv⌋ ≤ (m : ℤ) := by
      have := Int.floor_le_floor hdm
      rwa [Int.floor_natCast] at this
    omega
  rcases le_or_lt (x - (⌊x / dxv⌋.toNat : ℝ) * dxv) (dxv / 2) with hc | hc
  · by_cases him : ⌊x / dxv⌋.toNat + 1 ≤ m
    · refine ⟨⌊x / dxv⌋.toNat, ⌊x / dxv⌋.toNat,
        x - (⌊x / dxv⌋.toNat : ℝ) * dxv, dxv / 2 - (x - (⌊x / dxv⌋.toNat : ℝ) * dxv),
        hi0m, him, hf1, by linarith, by ring, by ring, by ring⟩
    · have him' : ⌊x / dxv⌋.toNat = m := by omega
      have hmr : ((⌊x / dxv⌋.toNat : ℕ) : ℝ) = (m : ℝ) := by exact_mod_cast him'
      have hxw : x ≤ (m : ℝ) * dxv := by rw [← hw]; exact hx2
      have hf0 : x - (⌊x / dxv⌋.toNat : ℝ) * dxv = 0 := by
        rw [hmr]
        nlinarith [hf1, hmr ▸ hf1]
      have hxm : x = (m : ℝ) * dxv := by
        rw [hmr] at hf0
        linarith
      refine ⟨m, m - 1, 0, dxv / 2, le_rfl, by omega, le_rfl, by linarith, by ring, ?_, ?_⟩
      · rw [hxm]
        ring
      · rw [hxm]
        have hmc : ((m - 1 : ℕ) : ℝ) = (m : ℝ) - 1 := by
          have : (1 : ℕ) ≤ m := hm
          push_cast [Nat.cast_sub this]
          ring
        rw [hmc]
        ring
  · have him : ⌊x / dxv⌋.toNat < m := by
      rcases lt_or_eq_of_le hi0m with h' | h'
      · exact h'
      · exfalso
        have hmr : ((⌊x / dxv⌋.toNat : ℕ) : ℝ) = (m : ℝ) := by exact_mod_cast h'
        have hxw : x ≤ (m : ℝ) * dxv := by rw [← hw]; exact hx2
        rw [hmr] at hc
        nlinarith
    refine ⟨⌊x / dxv⌋.toNat + 1, ⌊x / dxv⌋.toNat,
      dxv - (x - (⌊x / dxv⌋.toNat : ℝ) * dxv),
      (x - (⌊x / dxv⌋.toNat : ℝ) * dxv) - dxv / 2,
      by omega, by omega, by linarith, by linarith, by ring, ?_, by ring⟩
    push_cast
    ring

set_option maxHeartbeats 2000000 in
/-- Covering property of the truncated hexagonal lattice on a `w` by `h`
rectangle whose sides are exact multiples of the horizontal spacing and the
row pitch: every point of the rectangle is within `r` of a lattice center
that the CreateMesh loops actually emit. -/
theorem hexCoverPlanar (r dxv dyv w h x y : ℝ) (k m : ℕ)
    (hr : 0 < r) (hdxe : dxv = r * Real.sqrt 3) (hdye : dyv = 1.5 * r)
    (hw : w = m * dxv) (hh : h = k * dyv) (hm : 1 ≤ m)
    (hx1 : 0 ≤ x) (hx2 : x ≤ w) (hy1 : 0 ≤ y) (hy2 : y ≤ h) :
    ∃ (j i : ℕ) (cx : ℝ), j ≤ k ∧
      ((j % 2 = 0 ∧ i ≤ m ∧ cx = i * dxv) ∨
        (j % 2 ≠ 0 ∧ i + 1 ≤ m ∧ cx = dxv / 2 + i * dxv)) ∧
      (x - cx) ^ 2 + (y - j * dyv) ^ 2 ≤ r ^ 2 := by
  have hsq3 : Real.sqrt 3 * Real.sqrt 3 = 3 := Real.mul_self_sqrt (by norm_num)
  have hs3pos : 0 < Real.sqrt 3 := Real.sqrt_pos.mpr (by norm_num)
  have hdx : 0 < dxv := by rw [hdxe]; positivity
  have hdy : 0 < dyv := by rw [hdye]; linarith
  have hdxsq : dxv ^ 2 = 3 * r ^ 2 := by
    rw [hdxe]
    calc (r * Real.sqrt 3) ^ 2 = (Real.sqrt 3 * Real.sqrt 3) * r ^ 2 := by ring
      _ = 3 * r ^ 2 := by rw [hsq3]
  -- the row below the point
  have hyd : 0 ≤ y / dyv := div_nonneg hy1 hdy.le
  have hnn : 0 ≤ ⌊y / dyv⌋ := Int.floor_nonneg.mpr hyd
  have hcast : ((⌊y / dyv⌋.toNat : ℕ) : ℝ) = ((⌊y / dyv⌋ : ℤ) : ℝ) := by
    exact_mod_cast congrArg (fun z : ℤ => (z : ℝ)) (Int.toNat_of_nonneg hnn)
  have hv1 : 0 ≤ y - (⌊y / dyv⌋.toNat : ℝ) * dyv := by
    rw [hcast]
    have h := mul_le_mul_of_nonneg_right (Int.floor_le (y / dyv)) hdy.le
    rw [div_mul_cancel₀ y hdy.ne'] at h
    linarith
  have hv2 : y - (⌊y / dyv⌋.toNat : ℝ) * dyv < dyv := by
    rw [hcast]
    have h := mul_lt_mul_of_pos_right (Int.lt_floor_add_one (y / dyv)) hdy
    rw [div_mul_cancel₀ y hdy.ne'] at h
    push_cast at h ⊢
    nlinarith
  have hj0k : ⌊y / dyv⌋.toNat ≤ k := by
    have hdm : y / dyv ≤ k := (div_le_iff₀ hdy).mpr (by rw [hh] at hy2; linarith)
    have h2 : ⌊y / dyv⌋ ≤ (k : ℤ) := by
      have := Int.floor_le_floor hdm
      rwa [Int.floor_natCast] at this
    omega
  obtain ⟨iE, iO, aE, aO, hiE, hiO, haE, haO, hsum, hEeq, hOeq⟩ :=
    rowNearestCenters dxv w x m hm hdx hw hx1 hx2
  have haEle : aE ≤ dxv / 2 := by linarith
  have haOle : aO ≤ dxv / 2 := by linarith
  set j0 : ℕ := ⌊y / dyv⌋.toNat with hj0def
  set v : ℝ := y - (j0 : ℝ) * dyv with hvdef
  have hyv : ∀ j : ℕ, (y - (j : ℝ) * dyv) = v + ((j0 : ℝ) - (j : ℝ)) * dyv := by
    intro j
    rw [hvdef]
    ring
  clear_value j0 v
  have hq : (dxv / 2) ^ 2 = 3 * r ^ 2 / 4 := by
    have : (dxv / 2) ^ 2 = dxv ^ 2 / 4 := by ring
    rw [this, hdxsq]
  rcases le_or_lt v (r / 2) with hv | hv
  · -- within half a radius above row j0: that row alone covers
    have h2 : v ^ 2 ≤ (r / 2) ^ 2 := pow_le_pow_left hv1 hv 2
    have h2q : (r / 2) ^ 2 = r ^ 2 / 4 := by ring
    by_cases hpar : j0 % 2 = 0
    · refine ⟨j0, iE, iE * dxv, hj0k, Or.inl ⟨hpar, hiE, rfl⟩, ?_⟩
      rw [hEeq, hyv j0, sub_self, zero_mul, add_zero]
      have h1 : aE ^ 2 ≤ (dxv / 2) ^ 2 := pow_le_pow_left haE haEle 2
      linarith only [h1, h2, hq, h2q]
    · refine ⟨j0, iO, dxv / 2 + iO * dxv, hj0k, Or.inr ⟨hpar, hiO, rfl⟩, ?_⟩
      rw [hOeq, hyv j0, sub_self, zero_mul, add_zero]
      have h1 : aO ^ 2 ≤ (dxv / 2) ^ 2 := pow_le_pow_left haO haOle 2
      linarith only [h1, h2, hq, h2q]
  · have hj0k' : j0 < k := by
      rcases lt_or_eq_of_le hj0k with h' | h'
      · exact h'
      · exfalso
        have hkr : ((j0 : ℕ) : ℝ) = (k : ℝ) := by exact_mod_cast h'
        have hy3 : y ≤ (j0 : ℝ) * dyv := by
          rw [hkr, ← hh]
          exact hy2
        have : v ≤ 0 := by rw [hvdef]; linarith
        linarith
    have hstep : y - ((j0 : ℝ) + 1) * dyv = v - dyv := by
      rw [hvdef]
      ring
    have hcast1 : (((j0 + 1 : ℕ)) : ℝ) = (j0 : ℝ) + 1 := by push_cast; ring
    rcases le_or_lt r v with hvr | hvr
    · -- within half a radius below row j0+1: that row alone covers
      have hband : (v - dyv) ^ 2 ≤ (r / 2) ^ 2 := by
        have hlow : -(r / 2) ≤ v - dyv := by rw [hdye]; linarith
        have hhigh : v - dyv ≤ 0 := by linarith
        have habs : (v - dyv) ^ 2 = (dyv - v) ^ 2 := by ring
        rw [habs]
        apply pow_le_pow_left (by linarith) (by rw [hdye]; linarith)
      have h2q : (r / 2) ^ 2 = r ^ 2 / 4 := by ring
      by_cases hpar : (j0 + 1) % 2 = 0
      · refine ⟨j0 + 1, iE, iE * dxv, by omega, Or.inl ⟨hpar, hiE, rfl⟩, ?_⟩
        rw [hEeq, hcast1, hstep]
        have h1 : aE ^ 2 ≤ (dxv / 2) ^ 2 := pow_le_pow_left haE haEle 2
        linarith only [h1, hband, hq, h2q]
      · refine ⟨j0 + 1, iO, dxv / 2 + iO * dxv, by omega,
          Or.inr ⟨hpar, hiO, rfl⟩, ?_⟩
        rw [hOeq, hcast1, hstep]
        have h1 : aO ^ 2 ≤ (dxv / 2) ^ 2 := pow_le_pow_left haO haOle 2
        linarith only [h1, hband, hq, h2q]
    · -- middle band: one of the two rows covers
      have hvv : 0 < (2 * v - r) * (r - v) :=
        mul_pos (by linarith) (by linarith)
      have hab : 0 ≤ aE * aO := mul_nonneg haE haO
      have hsum2 : aE ^ 2 + aO ^ 2 ≤ 3 * r ^ 2 / 4 := by
        have h4 : (aE + aO) ^ 2 = 3 * r ^ 2 / 4 := by rw [hsum]; exact hq
        have e3 : (aE + aO) ^ 2 = aE ^ 2 + 2 * (aE * aO) + aO ^ 2 := by ring
        linarith only [h4, e3, hab]
      by_cases hpar : j0 % 2 = 0
      · by_cases hgood : aE ^ 2 + v ^ 2 ≤ r ^ 2
        · refine ⟨j0, iE, iE * dxv, hj0k, Or.inl ⟨hpar, hiE, rfl⟩, ?_⟩
          rw [hEeq, hyv j0, sub_self, zero_mul, add_zero]
          exact hgood
        · push_neg at hgood
          refine ⟨j0 + 1, iO, dxv / 2 + iO * dxv, by omega,
            Or.inr ⟨by omega, hiO, rfl⟩, ?_⟩
          rw [hOeq, hcast1, hstep, hdye]
          by_contra hbad
          push_neg at hbad
          have e1 : (v - 1.5 * r) ^ 2 = v ^ 2 - 3 * (r * v) + 2.25 * r ^ 2 := by ring
          have e2 : (2 * v - r) * (r - v) = 3 * (r * v) - 2 * v ^ 2 - r ^ 2 := by ring
          linarith only [hsum2, hgood, hbad, hvv, e1, e2]
      · by_cases hgood : aO ^ 2 + v ^ 2 ≤ r ^ 2
        · refine ⟨j0, iO, dxv / 2 + iO * dxv, hj0k, Or.inr ⟨hpar, hiO, rfl⟩, ?_⟩
          rw [hOeq, hyv j0, sub_self, zero_mul, add_zero]
          exact hgood
        · push_neg at hgood
          refine ⟨j0 + 1, iE, iE * dxv, by omega,
            Or.inl ⟨by omega, hiE, rfl⟩, ?_⟩
          rw [hEeq, hcast1, hstep, hdye]
          by_contra hbad
          push_neg at hbad
          have e1 : (v - 1.5 * r) ^ 2 = v ^ 2 - 3 * (r * v) + 2.25 * r ^ 2 := by ring
          have e2 : (2 * v - r) * (r - v) = 3 * (r * v) - 2 * v ^ 2 - r ^ 2 := by ring
          linarith only [hsum2, hgood, hbad, hvv, e1, e2]

set_option maxHeartbeats 1000000 in
/-- C3 amended.  For a valid radius and a box whose planar height is an
exact multiple of the row pitch `1.5 * r` and whose planar width is a
positive exact multiple of the horizontal spacing `r * sqrt 3`, every point
of the box lies within the radius of some emitted circle center (in the
box's local planar metric).  The counterexample `coverBoundingBox_gap`
shows the restriction on the box dimensions is necessary: the loops
truncate the lattice at the top/right edges. -/
theorem coverBoundingBox_covers (latMin latMax lonMin lonMax : ℝ) (radius : ℤ)
    (k m : ℕ) (hr : 0 < radius) (hm : 1 ≤ m)
    (hmpd : 0 < meshMetersPerDegreeLon latMin latMax)
    (hH : (latMax - latMin) * 111320 = (k : ℝ) * (1.5 * (radius : ℝ)))
    (hW : (lonMax - lonMin) * meshMetersPerDegreeLon latMin latMax =
      (m : ℝ) * ((radius : ℝ) * Real.sqrt 3))
    (p : Center) (hp1 : latMin ≤ p.Latitude) (hp2 : p.Latitude ≤ latMax)
    (hp3 : lonMin ≤ p.Longitude) (hp4 : p.Longitude ≤ lonMax) :
    ∃ l, CreateMesh latMin latMax lonMin lonMax radius = some l ∧
      ∃ c ∈ l, meshPlanarDist latMin latMax p c.Center ≤ (radius : ℝ) := by
  have hrR : (0 : ℝ) < (radius : ℝ) := by exact_mod_cast hr
  have hs3 : 0 < Real.sqrt 3 := Real.sqrt_pos.mpr (by norm_num)
  have hdxpos : 0 < (radius : ℝ) * Real.sqrt 3 := by positivity
  have hdyv : (radius : ℝ) * Real.sqrt 3 * Real.sqrt 3 / 2 = 1.5 * (radius : ℝ) := by
    rw [mul_assoc, Real.mul_self_sqrt (by norm_num : (0:ℝ) ≤ 3)]
    ring
  have hdypos : (0 : ℝ) < 1.5 * (radius : ℝ) := by linarith
  have hx1 : 0 ≤ (p.Longitude - lonMin) * meshMetersPerDegreeLon latMin latMax :=
    mul_nonneg (by linarith) hmpd.le
  have hx2 : (p.Longitude - lonMin) * meshMetersPerDegreeLon latMin latMax ≤
      (m : ℝ) * ((radius : ℝ) * Real.sqrt 3) := by
    rw [← hW]
    exact mul_le_mul_of_nonneg_right (by linarith) hmpd.le
  have hy1 : 0 ≤ (p.Latitude - latMin) * 111320 :=
    mul_nonneg (by linarith) (by norm_num)
  have hy2 : (p.Latitude - latMin) * 111320 ≤ (k : ℝ) * (1.5 * (radius : ℝ)) := by
    rw [← hH]
    exact mul_le_mul_of_nonneg_right (by linarith) (by norm_num)
  obtain ⟨j, i, cx, hjk, hcase, hbound⟩ :=
    hexCoverPlanar (radius : ℝ) ((radius : ℝ) * Real.sqrt 3) (1.5 * (radius : ℝ))
      ((m : ℝ) * ((radius : ℝ) * Real.sqrt 3)) ((k : ℝ) * (1.5 * (radius : ℝ)))
      ((p.Longitude - lonMin) * meshMetersPerDegreeLon latMin latMax)
      ((p.Latitude - latMin) * 111320) k m hrR rfl rfl rfl rfl hm hx1 hx2 hy1 hy2
  have hrowEq : goLoopCount 0 ((latMax - latMin) * 111320)
      ((radius : ℝ) * Real.sqrt 3 * Real.sqrt 3 / 2) = k + 1 := by
    rw [hdyv]
    unfold goLoopCount
    rw [if_neg (not_lt.mpr (by rw [hH]; positivity)), sub_zero, hH,
      mul_div_cancel_right₀ _ (ne_of_gt hdypos), Int.floor_natCast]
    omega
  have hrow : j < goLoopCount 0 ((latMax - latMin) * 111320)
      ((radius : ℝ) * Real.sqrt 3 * Real.sqrt 3 / 2) := by
    rw [hrowEq]
    omega
  have hlat2 : (p.Latitude - (latMin +
      ((j : ℝ) * ((radius : ℝ) * Real.sqrt 3 * Real.sqrt 3 / 2)) / 111320)) * 111320 =
      (p.Latitude - latMin) * 111320 - (j : ℝ) * (1.5 * (radius : ℝ)) := by
    rw [hdyv]
    have e : (p.Latitude - (latMin + ((j : ℝ) * (1.5 * (radius : ℝ))) / 111320)) * 111320 =
        (p.Latitude - latMin) * 111320 -
          (((j : ℝ) * (1.5 * (radius : ℝ))) / 111320) * 111320 := by
      ring
    rw [e, div_mul_cancel₀ _ (by norm_num : (111320 : ℝ) ≠ 0)]
  rcases hcase with ⟨hpar, him, hcx⟩ | ⟨hpar, him, hcx⟩
  · -- even row: centers at multiples of dx
    have hoffj : meshRowOffset ((radius : ℝ) * Real.sqrt 3) j = 0 := by
      unfold meshRowOffset
      simp [hpar]
    have hcolEq : goLoopCount (meshRowOffset ((radius : ℝ) * Real.sqrt 3) j)
        ((lonMax - lonMin) * meshMetersPerDegreeLon latMin latMax)
        ((radius : ℝ) * Real.sqrt 3) = m + 1 := by
      rw [hoffj]
      unfold goLoopCount
      rw [if_neg (not_lt.mpr (by rw [hW]; positivity)), sub_zero, hW,
        mul_div_cancel_right₀ _ (ne_of_gt hdxpos), Int.floor_natCast]
      omega
    have hcol : i < goLoopCount (meshRowOffset ((radius : ℝ) * Real.sqrt 3) j)
        ((lonMax - lonMin) * meshMetersPerDegreeLon latMin latMax)
        ((radius : ℝ) * Real.sqrt 3) := by
      rw [hcolEq]
      omega
    refine ⟨meshList latMin latMax lonMin lonMax radius, ?_, ?_⟩
    · unfold CreateMesh
      rw [if_neg (not_le.mpr hr)]
    · refine ⟨_, mem_meshList hrow hcol, ?_⟩
      unfold meshPlanarDist
      rw [hlat2]
      have hlon2 : (p.Longitude - (lonMin +
          (meshRowOffset ((radius : ℝ) * Real.sqrt 3) j +
            (i : ℝ) * ((radius : ℝ) * Real.sqrt 3)) /
              meshMetersPerDegreeLon latMin latMax)) *
            meshMetersPerDegreeLon latMin latMax =
          (p.Longitude - lonMin) * meshMetersPerDegreeLon latMin latMax - cx := by
        rw [hoffj, zero_add, hcx]
        have e : (p.Longitude - (lonMin +
            ((i : ℝ) * ((radius : ℝ) * Real.sqrt 3)) /
              meshMetersPerDegreeLon latMin latMax)) *
              meshMetersPerDegreeLon latMin latMax =
            (p.Longitude - lonMin) * meshMetersPerDegreeLon latMin latMax -
              (((i : ℝ) * ((radius : ℝ) * Real.sqrt 3)) /
                meshMetersPerDegreeLon latMin latMax) *
                meshMetersPerDegreeLon latMin latMax := by
          ring
        rw [e, div_mul_cancel₀ _ (ne_of_gt hmpd)]
      rw [hlon2]
      have hfin : ((p.Latitude - latMin) * 111320 - (j : ℝ) * (1.5 * (radius : ℝ))) ^ 2 +
          ((p.Longitude - lonMin) * meshMetersPerDegreeLon latMin latMax - cx) ^ 2 ≤
          (radius : ℝ) ^ 2 := by
        linarith [hbound]
      calc Real.sqrt (((p.Latitude - latMin) * 111320 - (j : ℝ) * (1.5 * (radius : ℝ))) ^ 2 +
            ((p.Longitude - lonMin) * meshMetersPerDegreeLon latMin latMax - cx) ^ 2) ≤
            Real.sqrt ((radius : ℝ) ^ 2) := Real.sqrt_le_sqrt hfin
        _ = (radius : ℝ) := Real.sqrt_sq hrR.le
  · -- odd row: centers at dx/2 plus multiples of dx
    have hoffj : meshRowOffset ((radius : ℝ) * Real.sqrt 3) j =
        ((radius : ℝ) * Real.sqrt 3) / 2 := by
      unfold meshRowOffset
      simp [hpar]
    have hcolEq : goLoopCount (meshRowOffset ((radius : ℝ) * Real.sqrt 3) j)
        ((lonMax - lonMin) * meshMetersPerDegreeLon latMin latMax)
        ((radius : ℝ) * Real.sqrt 3) = m := by
      rw [hoffj]
      unfold goLoopCount
      have hge : ¬ ((lonMax - lonMin) * meshMetersPerDegreeLon latMin latMax <
          ((radius : ℝ) * Real.sqrt 3) / 2) := by
        rw [hW]
        push_neg
        have hm1 : (1 : ℝ) ≤ (m : ℝ) := by exact_mod_cast hm
        nlinarith
      rw [if_neg hge, hW]
      have hdiv : ((m : ℝ) * ((radius : ℝ) * Real.sqrt 3) -
          ((radius : ℝ) * Real.sqrt 3) / 2) / ((radius : ℝ) * Real.sqrt 3) =
          (m : ℝ) - 1 / 2 := by
        field_simp
        ring
      rw [hdiv]
      have hfloor : ⌊(m : ℝ) - 1 / 2⌋ = (m : ℤ) - 1 := by
        rw [Int.floor_eq_iff]
        constructor
        · push_cast
          linarith
        · push_cast
          linarith
      rw [hfloor]
      omega
    have hcol : i < goLoopCount (meshRowOffset ((radius : ℝ) * Real.sqrt 3) j)
        ((lonMax - lonMin) * meshMetersPerDegreeLon latMin latMax)
        ((radius : ℝ) * Real.sqrt 3) := by
      rw [hcolEq]
      omega
    refine ⟨meshList latMin latMax lonMin lonMax radius, ?_, ?_⟩
    · unfold CreateMesh
      rw [if_neg (not_le.mpr hr)]
    · refine ⟨_, mem_meshList hrow hcol, ?_⟩
      unfold meshPlanarDist
      rw [hlat2]
      have hlon2 : (p.Longitude - (lonMin +
          (meshRowOffset ((radius : ℝ) * Real.sqrt 3) j +
            (i : ℝ) * ((radius : ℝ) * Real.sqrt 3)) /
              meshMetersPerDegreeLon latMin latMax)) *
            meshMetersPerDegreeLon latMin latMax =
          (p.Longitude - lonMin) * meshMetersPerDegreeLon latMin latMax - cx := by
        rw [hoffj, hcx]
        have e : (p.Longitude - (lonMin +
            (((radius : ℝ) * Real.sqrt 3) / 2 + (i : ℝ) * ((radius : ℝ) * Real.sqrt 3)) /
              meshMetersPerDegreeLon latMin latMax)) *
              meshMetersPerDegreeLon latMin latMax =
            (p.Longitude - lonMin) * meshMetersPerDegreeLon latMin latMax -
              ((((radius : ℝ) * Real.sqrt 3) / 2 + (i : ℝ) * ((radius : ℝ) * Real.sqrt 3)) /
                meshMetersPerDegreeLon latMin latMax) *
                meshMetersPerDegreeLon latMin latMax := by
          ring
        rw [e, div_mul_cancel₀ _ (ne_of_gt hmpd)]
      rw [hlon2]
      have hfin : ((p.Latitude - latMin) * 111320 - (j : ℝ) * (1.5 * (radius : ℝ))) ^ 2 +
          ((p.Longitude - lonMin) * meshMetersPerDegreeLon latMin latMax - cx) ^ 2 ≤
          (radius : ℝ) ^ 2 := by
        linarith [hbound]
      calc Real.sqrt (((p.Latitude - latMin) * 111320 - (j : ℝ) * (1.5 * (radius : ℝ))) ^ 2 +
            ((p.Longitude - lonMin) * meshMetersPerDegreeLon latMin latMax - cx) ^ 2) ≤
            Real.sqrt ((radius : ℝ) ^ 2) := Real.sqrt_le_sqrt hfin
        _ = (radius : ℝ) := Real.sqrt_sq hrR.le

/-- Witness for the amended coverage theorem: a one-row-pitch-high,
one-spacing-wide box around the equator, with the query point at its
bottom-left corner. -/
theorem coverBoundingBox_covers_witness :
    ∃ l, CreateMesh (-(750 / 111320)) (750 / 111320) 0
        (1000 * Real.sqrt 3 / 111320) 1000 = some l ∧
      ∃ c ∈ l, meshPlanarDist (-(750 / 111320)) (750 / 111320) ⟨0, 0⟩ c.Center ≤
        ((1000 : ℤ) : ℝ) := by
  have hmpdv : meshMetersPerDegreeLon (-(750 / 111320)) (750 / 111320) = 111320 := by
    unfold meshMetersPerDegreeLon
    have harg : (((-(750 / 111320) : ℝ)) + 750 / 111320) / 2 * Real.pi / 180 = 0 := by
      ring
    rw [harg, Real.cos_zero, mul_one]
    rw [if_neg (by norm_num)]
  refine coverBoundingBox_covers (-(750 / 111320)) (750 / 111320) 0
    (1000 * Real.sqrt 3 / 111320) 1000 1 1 (by norm_num) le_rfl ?_ ?_ ?_
    ⟨0, 0⟩ ?_ ?_ ?_ ?_
  · rw [hmpdv]
    norm_num
  · push_cast
    norm_num
  · rw [hmpdv]
    push_cast
    rw [sub_zero, div_mul_cancel₀ _ (by norm_num : (111320 : ℝ) ≠ 0)]
    ring
  · norm_num
  · norm_num
  · norm_num
  · positivity

/-! ## PolylineToCircles (pkg/maps/route.go) -/

/-- `DecodePolyline` (pkg/maps/route.go) producing `Center` values: decode
the scaled integers and divide by 1e5. -/
noncomputable def DecodePolyline (encoded : List ℕ) : Option (List Center) :=
  (decodeIntPolyline 0 0 encoded).map
    (List.map fun q => ⟨((q.1 : ℤ) : ℝ) / 100000, ((q.2 : ℤ) : ℝ) / 100000⟩)

/-- One segment of `interpolatePoints`: if the segment is no longer than
the interval, keep just its endpoint; otherwise insert
`ceil (dist / interval) - 1` evenly interpolated points before the
endpoint.  Go computes `numSegments := int(math.Ceil(dist / interval))`;
`int` of an integral float is that integer, so the ceiling is used
directly. -/
noncomputable def interpSeg (p1 p2 : Center) (intervalMeters : ℝ) : List Center :=
  if haversineDistance p1 p2 ≤ intervalMeters then [p2]
  else
    ((List.range ((⌈haversineDistance p1 p2 / intervalMeters⌉).toNat - 1)).map
      fun (jm : ℕ) =>
        ⟨p1.Latitude + (((jm + 1 : ℕ) : ℝ) /
            ((⌈haversineDistance p1 p2 / intervalMeters⌉ : ℤ) : ℝ)) *
          (p2.Latitude - p1.Latitude),
         p1.Longitude + (((jm + 1 : ℕ) : ℝ) /
            ((⌈haversineDistance p1 p2 / intervalMeters⌉ : ℤ) : ℝ)) *
          (p2.Longitude - p1.Longitude)⟩) ++ [p2]

/-- The consecutive-pair loop of `interpolatePoints`. -/
noncomputable def interpolateAux (intervalMeters : ℝ) : Center → List Center → List Center
  | _, [] => []
  | prev, p :: rest => interpSeg prev p intervalMeters ++ interpolateAux intervalMeters p rest

/-- `interpolatePoints` (pkg/maps/route.go): empty stays empty, otherwise
the first point followed by the densified segments. -/
noncomputable def interpolatePoints (points : List Center) (intervalMeters : ℝ) :
    List Center :=
  match points with
  | [] => []
  | p0 :: rest => p0 :: interpolateAux intervalMeters p0 rest

/-- The greedy circle-placement loop of `PolylineToCircles`: walk the
points; whenever the haversine distance from the last placed center
exceeds the radius, place a circle there and reset.  Returns the placed
circles (beyond the initial one) and the final `lastCircleCenter`. -/
noncomputable def greedyCircles (radius : ℝ) : List Center → Center → (List Circle × Center)
  | [], lastC => ([], lastC)
  | p :: rest, lastC =>
    if haversineDistance lastC p > radius then
      ((⟨p, radius⟩ : Circle) :: (greedyCircles radius rest p).1,
        (greedyCircles radius rest p).2)
    else greedyCircles radius rest lastC

/-- Error outcomes of `PolylineToCircles`. -/
inductive RouteErr where
  | invalidRadius : RouteErr
  | malformedPolyline : RouteErr
deriving DecidableEq

/-- `PolylineToCircles` (pkg/maps/route.go): guard the radius, decode,
densify at 100 m, then greedily cover, always closing with a circle at the
final point when the greedy walk did not end there. -/
noncomputable def PolylineToCircles (encodedPolyline : List ℕ) (radius : ℝ) :
    Except RouteErr (List Circle) :=
  if radius ≤ 0 then Except.error RouteErr.invalidRadius
  else
    match DecodePolyline encodedPolyline with
    | none => Except.error RouteErr.malformedPolyline
    | some pts =>
      match interpolatePoints pts 100 with
      | [] => Except.ok []
      | p0 :: rest =>
        let res := greedyCircles radius rest p0
        let circles := (⟨p0, radius⟩ : Circle) :: res.1
        let lastPoint := (p0 :: rest).getLast (List.cons_ne_nil p0 rest)
        if res.2 ≠ lastPoint then Except.ok (circles ++ [⟨lastPoint, radius⟩])
        else Except.ok circles

/-- C5 counterexample.  For the empty path (empty encoded string) and a
valid radius, `PolylineToCircles` returns an empty circle list with no
error, not an `InvalidParameterError` as the claim states. -/
theorem polylineToCircles_empty_ok : PolylineToCircles [] 1000 = Except.ok [] := by
  unfold PolylineToCircles
  rw [if_neg (by norm_num)]
  have hdec : DecodePolyline [] = some [] := by
    unfold DecodePolyline
    simp [decodeIntPolyline]
  rw [hdec]
  rfl

/-- C5 amended.  `PolylineToCircles` fails with the invalid-parameter error
exactly when the radius is non-positive; an empty path with a positive
radius yields an empty circle list and no error. -/
theorem polylineToCircles_guard :
    (∀ (enc : List ℕ) (radius : ℝ), radius ≤ 0 →
      PolylineToCircles enc radius = Except.error RouteErr.invalidRadius) ∧
    (∀ radius : ℝ, 0 < radius → PolylineToCircles [] radius = Except.ok []) := by
  constructor
  · intro enc radius h
    unfold PolylineToCircles
    rw [if_pos h]
  · intro radius h
    unfold PolylineToCircles
    rw [if_neg (not_le.mpr h)]
    have hdec : DecodePolyline [] = some [] := by
      unfold DecodePolyline
      simp [decodeIntPolyline]
    rw [hdec]
    rfl

/-- Witness for C5 amended at concrete inputs. -/
theorem polylineToCircles_guard_witness :
    PolylineToCircles [95, 95] (-5) = Except.error RouteErr.invalidRadius ∧
      PolylineToCircles [] 7 = Except.ok [] :=
  ⟨polylineToCircles_guard.1 [95, 95] (-5) (by norm_num),
    polylineToCircles_guard.2 7 (by norm_num)⟩

/-! ## Point-to-route projection and the spatial index

`distanceToSegment`, `distanceToPolyline`, `buildPolylineIndex` and
`distanceToPolylineWithIndex` (maps package).  The min-scan loop bodies of
the exhaustive and the indexed query are textually identical in the
source, differing only in where each candidate segment and its
cumulative-start distance come from; `scanStep` is that shared body, and
each query folds it over its own candidate list. -/

/-- `distanceToSegment` (maps package): squared degree-space length of the
segment; at zero fall back to the distance to `v`, otherwise project with
the clamped parameter `t` and measure the haversine distance to the
projected point. -/
noncomputable def distanceToSegment (p v w : Center) : ℝ :=
  if (v.Latitude - w.Latitude) * (v.Latitude - w.Latitude) +
      (v.Longitude - w.Longitude) * (v.Longitude - w.Longitude) = 0 then
    haversineDistance p v
  else
    haversineDistance p
      ⟨v.Latitude + max 0 (min 1
          (((p.Latitude - v.Latitude) * (w.Latitude - v.Latitude) +
            (p.Longitude - v.Longitude) * (w.Longitude - v.Longitude)) /
           ((v.Latitude - w.Latitude) * (v.Latitude - w.Latitude) +
            (v.Longitude - w.Longitude) * (v.Longitude - w.Longitude)))) *
        (w.Latitude - v.Latitude),
       v.Longitude + max 0 (min 1
          (((p.Latitude - v.Latitude) * (w.Latitude - v.Latitude) +
            (p.Longitude - v.Longitude) * (w.Longitude - v.Longitude)) /
           ((v.Latitude - w.Latitude) * (v.Latitude - w.Latitude) +
            (v.Longitude - w.Longitude) * (v.Longitude - w.Longitude)))) *
        (w.Longitude - v.Longitude)⟩

/-- A candidate segment as the min-scan sees it: its endpoints and the
cumulative route distance at its start. -/
structure SegCand where
  p1 : Center
  p2 : Center
  cumStart : ℝ

/-- The improvement branch of the shared loop body of both nearest-point
scans: the distance to the candidate segment, the along-route distance
(cumulative start plus the clamped projection parameter `t` times the
segment's haversine length, or the cumulative start alone for a degenerate
segment, whose `t` the source leaves zero) and the projected point. -/
noncomputable def scanVal (point : Center) (sc : SegCand) : ℝ × ℝ × Center :=
  if (sc.p1.Latitude - sc.p2.Latitude) * (sc.p1.Latitude - sc.p2.Latitude) +
      (sc.p1.Longitude - sc.p2.Longitude) * (sc.p1.Longitude - sc.p2.Longitude) = 0 then
    (distanceToSegment point sc.p1 sc.p2, sc.cumStart, sc.p1)
  else
    (distanceToSegment point sc.p1 sc.p2,
     sc.cumStart + max 0 (min 1
        (((point.Latitude - sc.p1.Latitude) * (sc.p2.Latitude - sc.p1.Latitude) +
          (point.Longitude - sc.p1.Longitude) * (sc.p2.Longitude - sc.p1.Longitude)) /
         ((sc.p1.Latitude - sc.p2.Latitude) * (sc.p1.Latitude - sc.p2.Latitude) +
          (sc.p1.Longitude - sc.p2.Longitude) * (sc.p1.Longitude - sc.p2.Longitude)))) *
       haversineDistance sc.p1 sc.p2,
     ⟨sc.p1.Latitude + max 0 (min 1
        (((point.Latitude - sc.p1.Latitude) * (sc.p2.Latitude - sc.p1.Latitude) +
          (point.Longitude - sc.p1.Longitude) * (sc.p2.Longitude - sc.p1.Longitude)) /
         ((sc.p1.Latitude - sc.p2.Latitude) * (sc.p1.Latitude - sc.p2.Latitude) +
          (sc.p1.Longitude - sc.p2.Longitude) * (sc.p1.Longitude - sc.p2.Longitude)))) *
       (sc.p2.Latitude - sc.p1.Latitude),
      sc.p1.Longitude + max 0 (min 1
        (((point.Latitude - sc.p1.Latitude) * (sc.p2.Latitude - sc.p1.Latitude) +
          (point.Longitude - sc.p1.Longitude) * (sc.p2.Longitude - sc.p1.Longitude)) /
         ((sc.p1.Latitude - sc.p2.Latitude) * (sc.p1.Latitude - sc.p2.Latitude) +
          (sc.p1.Longitude - sc.p2.Longitude) * (sc.p1.Longitude - sc.p2.Longitude)))) *
       (sc.p2.Longitude - sc.p1.Longitude)⟩)

/-- The shared loop body of both nearest-point scans: on strict improvement
of the minimum distance, replace the running triple by the candidate's
triple. -/
noncomputable def scanStep (point : Center) (st : ℝ × ℝ × Center) (sc : SegCand) :
    ℝ × ℝ × Center :=
  if distanceToSegment point sc.p1 sc.p2 < st.1 then scanVal point sc
  else st

/-- The consecutive segments of a polyline, with running cumulative
distance, as `distanceToPolyline` iterates them. -/
noncomputable def segCands : List Center → ℝ → List SegCand
  | p1 :: p2 :: rest, cum =>
    ⟨p1, p2, cum⟩ :: segCands (p2 :: rest) (cum + haversineDistance p1 p2)
  | _, _ => []

/-- `distanceToPolyline` (maps package): exhaustive min-scan over all
consecutive segments, starting from `math.MaxFloat64` and the zero-value
`Center`. -/
noncomputable def distanceToPolyline (point : Center) (polyline : List Center) :
    ℝ × ℝ × Center :=
  (segCands polyline 0).foldl (scanStep point) (maxFloat64, 0, ⟨0, 0⟩)

/-- Go struct `PolylineSegment`. -/
structure PolylineSegment where
  StartIdx : ℕ
  EndIdx : ℕ
  CumulativeDist : ℝ

/-- Cumulative haversine distance from the start of the polyline to point
`n`, as accumulated by the index-construction loop. -/
noncomputable def cumDistAt (pl : List Center) : ℕ → ℝ
  | 0 => 0
  | n + 1 => cumDistAt pl n + haversineDistance (pl.getD n ⟨0, 0⟩) (pl.getD (n + 1) ⟨0, 0⟩)

/-- Go struct `PolylineIndex`; the 2D cell array becomes a function from
cell coordinates to the segment list written into that cell. -/
structure PolylineIndex where
  gridSize : ℝ
  minLat : ℝ
  maxLat : ℝ
  minLng : ℝ
  maxLng : ℝ
  gridWidth : ℤ
  gridHeight : ℤ
  grid : ℤ → ℤ → List PolylineSegment
  polyline : List Center

/-- `buildPolylineIndex` (maps package): nil for fewer than two points;
otherwise pad the bounding box by one cell, derive the grid dimensions
with a floor-of-one guard, and write every segment into every cell its
bounding box touches (cell coordinates truncated, then clamped to the
grid).  `int(math.Ceil(..))` of the nonneg range is the ceiling itself;
cells receive segments in index order, which `List.filterMap` over the
index range reproduces. -/
noncomputable def buildPolylineIndex (polyline : List Center) (gridSize : ℝ) :
    Option PolylineIndex :=
  if polyline.length < 2 then none
  else
    let p0 := polyline.headD ⟨0, 0⟩
    let minLat := (polyline.foldl (fun m p => min m p.Latitude) p0.Latitude) - gridSize
    let maxLat := (polyline.foldl (fun m p => max m p.Latitude) p0.Latitude) + gridSize
    let minLng := (polyline.foldl (fun m p => min m p.Longitude) p0.Longitude) - gridSize
    let maxLng := (polyline.foldl (fun m p => max m p.Longitude) p0.Longitude) + gridSize
    let gridWidth := if ⌈(maxLng - minLng) / gridSize⌉ ≤ 0 then 1
      else ⌈(maxLng - minLng) / gridSize⌉
    let gridHeight := if ⌈(maxLat - minLat) / gridSize⌉ ≤ 0 then 1
      else ⌈(maxLat - minLat) / gridSize⌉
    some
      { gridSize := gridSize, minLat := minLat, maxLat := maxLat,
        minLng := minLng, maxLng := maxLng,
        gridWidth := gridWidth, gridHeight := gridHeight,
        grid := fun y x =>
          (List.range (polyline.length - 1)).filterMap fun i =>
            if max 0 (goTrunc ((min (polyline.getD i ⟨0, 0⟩).Latitude
                  (polyline.getD (i + 1) ⟨0, 0⟩).Latitude - minLat) / gridSize)) ≤ y ∧
               y ≤ min (gridHeight - 1)
                  (goTrunc ((max (polyline.getD i ⟨0, 0⟩).Latitude
                    (polyline.getD (i + 1) ⟨0, 0⟩).Latitude - minLat) / gridSize)) ∧
               max 0 (goTrunc ((min (polyline.getD i ⟨0, 0⟩).Longitude
                  (polyline.getD (i + 1) ⟨0, 0⟩).Longitude - minLng) / gridSize)) ≤ x ∧
               x ≤ min (gridWidth - 1)
                  (goTrunc ((max (polyline.getD i ⟨0, 0⟩).Longitude
                    (polyline.getD (i + 1) ⟨0, 0⟩).Longitude - minLng) / gridSize)) then
              some ⟨i, i + 1, cumDistAt polyline i⟩
            else none,
        polyline := polyline }

/-- The first-occurrence dedup by `StartIdx` of
`distanceToPolylineWithIndex` (the `seen` map). -/
def dedupByStart : List PolylineSegment → List ℕ → List PolylineSegment
  | [], _ => []
  | s :: rest, seen =>
    if s.StartIdx ∈ seen then dedupByStart rest seen
    else s :: dedupByStart rest (s.StartIdx :: seen)

/-- The candidate-gathering loop of `distanceToPolylineWithIndex`: the
point's cell is found by truncating its offset from the padded bounding
box, and the 3x3 neighborhood is visited row-major (`dy` outer, `dx`
inner), appending each in-bounds cell's segment list. -/
noncomputable def gatherCands (point : Center) (idx : PolylineIndex) :
    List PolylineSegment :=
  let pointY := goTrunc ((point.Latitude - idx.minLat) / idx.gridSize)
  let pointX := goTrunc ((point.Longitude - idx.minLng) / idx.gridSize)
  ([-1, 0, 1] : List ℤ).foldl (fun acc dy =>
    ([-1, 0, 1] : List ℤ).foldl (fun acc2 dx =>
      if 0 ≤ pointY + dy ∧ pointY + dy < idx.gridHeight ∧
          0 ≤ pointX + dx ∧ pointX + dx < idx.gridWidth then
        acc2 ++ idx.grid (pointY + dy) (pointX + dx)
      else acc2) acc) []

/-- The deduplicated candidate segments of `distanceToPolylineWithIndex`,
as the `SegCand`s the min-scan sees: endpoints looked up in the indexed
polyline, cumulative start from the stored `CumulativeDist`. -/
noncomputable def indexedCands (point : Center) (idx : PolylineIndex) :
    List SegCand :=
  (dedupByStart (gatherCands point idx) []).map fun s =>
    (⟨idx.polyline.getD s.StartIdx ⟨0, 0⟩, idx.polyline.getD s.EndIdx ⟨0, 0⟩,
      s.CumulativeDist⟩ : SegCand)

/-- `distanceToPolylineWithIndex` (maps package).  A nil index makes the
Go guard `index == nil || len(index.polyline) < 2` evaluate
`index.polyline` through the nil pointer: that run panics, modelled as
`none`.  Otherwise gather candidates from the 3x3 cell neighborhood,
fall back to the exhaustive scan when no candidates are found, dedup by
segment start index, and run the shared min-scan over the candidates. -/
noncomputable def distanceToPolylineWithIndex (point : Center)
    (index : Option PolylineIndex) : Option (ℝ × ℝ × Center) :=
  match index with
  | none => none
  | some idx =>
    if idx.polyline.length < 2 then some (distanceToPolyline point idx.polyline)
    else
      if gatherCands point idx = [] then some (distanceToPolyline point idx.polyline)
      else
        some ((indexedCands point idx).foldl (scanStep point) (maxFloat64, 0, ⟨0, 0⟩))

/-- C10 (code bug).  `buildPolylineIndex` returns the nil index for any
path of fewer than two points, and `distanceToPolylineWithIndex` applied
to that nil index dereferences it inside the guard's fallback call
(`distanceToPolyline(point, index.polyline)`) and panics (`none`), instead
of returning a fallback result. -/
theorem distanceToPolylineWithIndex_nil_panics :
    buildPolylineIndex [] (0.01 : ℝ) = none ∧
      buildPolylineIndex [⟨1, 2⟩] (0.01 : ℝ) = none ∧
      distanceToPolylineWithIndex ⟨3, 4⟩ (buildPolylineIndex [⟨1, 2⟩] (0.01 : ℝ)) = none := by
  have h1 : buildPolylineIndex [] (0.01 : ℝ) = none := by
    unfold buildPolylineIndex
    rw [if_pos (by norm_num)]
  have h2 : buildPolylineIndex [⟨1, 2⟩] (0.01 : ℝ) = none := by
    unfold buildPolylineIndex
    rw [if_pos (by norm_num)]
  refine ⟨h1, h2, ?_⟩
  rw [h2]
  rfl

/-! ## calculateETA (maps package, route-totals variant) -/

/-- Go struct `CumPoint`: a profile point with cumulative distance (km)
and cumulative duration (seconds). -/
structure CumPoint where
  Lat : ℝ
  Lng : ℝ
  CumDistKm : ℝ
  CumDurSeconds : ℤ

/-- The profile scan of `calculateETA`: first point whose cumulative
distance reaches the target, if any. -/
noncomputable def findCumDur : List CumPoint → ℝ → Option ℤ
  | [], _ => none
  | cp :: rest, target =>
    if cp.CumDistKm ≥ target then some cp.CumDurSeconds else findCumDur rest target

/-- `calculateETA` (maps package): the source returns `time.Now()` plus a
travel offset; the offset in seconds is the modelled quantity.  With a
profile, take the first cumulative duration at or past the along-route
distance (falling back to the last profile point); without one, take the
total duration (a `time.Duration`, integer nanoseconds, whose `.Seconds()`
is `float64(d) / 1e9`) scaled by the along-route fraction and truncated by
the `int(...)` conversion.  Either way add the 50 km/h detour time for the
off-route distance, truncated by the `time.Duration(...)` conversion. -/
noncomputable def calculateETAOffsetSec (cumulativePoints : List CumPoint)
    (distAlongRoute distFromRoute : ℝ) (totalRouteDist : ℝ)
    (totalRouteDurNs : ℤ) : ℤ :=
  (match cumulativePoints with
   | [] =>
     if totalRouteDist > 0 then
       goTrunc (((totalRouteDurNs : ℝ) / 1000000000) * (distAlongRoute / totalRouteDist))
     else 0
   | cp :: rest =>
     match findCumDur (cp :: rest) (distAlongRoute / 1000) with
     | some d => d
     | none => ((cp :: rest).getLast (List.cons_ne_nil cp rest)).CumDurSeconds) +
  goTrunc (distFromRoute / 1000 / 50 * 3600)

/-- C4.  With an empty cumulative profile and a positive total route
distance, the arrival offset is the total route duration (in seconds)
scaled by the along-route fraction (truncated to whole seconds by Go's
`int(...)`), plus the 50 km/h detour time for the off-route distance; for
the 100 km / 7200 s route at 50 km along with no detour, the offset is
exactly 3600 seconds. -/
theorem calculateETA_linearFallback :
    (∀ (dAlong dFrom tDist : ℝ) (ns : ℤ), 0 < tDist →
      calculateETAOffsetSec [] dAlong dFrom tDist ns =
        goTrunc (((ns : ℝ) / 1000000000) * (dAlong / tDist)) +
          goTrunc (dFrom / 1000 / 50 * 3600)) ∧
    calculateETAOffsetSec [] 50000 0 100000 7200000000000 = 3600 := by
  have hgen : ∀ (dAlong dFrom tDist : ℝ) (ns : ℤ), 0 < tDist →
      calculateETAOffsetSec [] dAlong dFrom tDist ns =
        goTrunc (((ns : ℝ) / 1000000000) * (dAlong / tDist)) +
          goTrunc (dFrom / 1000 / 50 * 3600) := by
    intro dAlong dFrom tDist ns h
    show (if tDist > 0 then
        goTrunc (((ns : ℝ) / 1000000000) * (dAlong / tDist)) else 0) +
      goTrunc (dFrom / 1000 / 50 * 3600) =
      goTrunc (((ns : ℝ) / 1000000000) * (dAlong / tDist)) +
        goTrunc (dFrom / 1000 / 50 * 3600)
    rw [if_pos h]
  refine ⟨hgen, ?_⟩
  rw [hgen 50000 0 100000 7200000000000 (by norm_num)]
  have e1 : (((7200000000000 : ℤ) : ℝ) / 1000000000) * ((50000 : ℝ) / 100000) =
      ((3600 : ℤ) : ℝ) := by
    norm_num
  have e2 : ((0 : ℝ) / 1000 / 50 * 3600) = ((0 : ℤ) : ℝ) := by
    norm_num
  rw [e1, e2, goTrunc_intCast, goTrunc_intCast]
  norm_num

/-- Witness for C4's general clause at the scenario input. -/
theorem calculateETA_linearFallback_witness :
    calculateETAOffsetSec [] 50000 0 100000 7200000000000 =
      goTrunc ((((7200000000000 : ℤ) : ℝ) / 1000000000) * ((50000 : ℝ) / 100000)) +
        goTrunc ((0 : ℝ) / 1000 / 50 * 3600) :=
  calculateETA_linearFallback.1 50000 0 100000 7200000000000 (by norm_num)

/-! ## GetSuperchargerWithCache (maps package)

The outcome of every external call (database get, restaurants lookup,
place-details fetch, restaurant text search, cache writes) is passed in as
a parameter, so the function below is the source's control flow over those
outcomes.  Go returns the triple `(*db.Supercharger,
[]db.RestaurantWithDistance, error)`; `CacheResult` is that triple. -/

/-- Go struct `db.Supercharger` (LastUpdated, a wall-clock column the flow
never reads, is omitted). -/
structure Supercharger where
  PlaceID : String
  Name : String
  Address : String
  Latitude : ℝ
  Longitude : ℝ
  IsSupercharger : Bool

/-- Go struct `db.Restaurant`. -/
structure Restaurant where
  PlaceID : String
  Name : String
  Address : String
  Latitude : ℝ
  Longitude : ℝ
  PrimaryType : String
  PrimaryTypeDisplay : String

/-- Go struct `db.RestaurantWithDistance`. -/
structure RestaurantWithDistance where
  Restaurant : Restaurant
  Distance : ℝ

/-- The `DisplayName` object of the Places API response. -/
structure DisplayNameObj where
  Text : String

/-- The location object of the Places API response. -/
structure PlaceLocation where
  Latitude : ℝ
  Longitude : ℝ

/-- The Places API detail record; pointer-typed fields become `Option`. -/
structure PlaceDetails where
  ID : String
  DisplayName : Option DisplayNameObj
  FormattedAddress : Option String
  Location : Option PlaceLocation
  PrimaryType : Option String
  PrimaryTypeDisplayName : Option DisplayNameObj

/-- `derefString` (maps package): nil becomes the empty string. -/
def derefString (s : Option String) : String := s.getD ""

/-- `derefDisplayName` (maps package). -/
def derefDisplayName (dn : Option DisplayNameObj) : String :=
  match dn with
  | none => ""
  | some d => d.Text

/-- Whether `needle` is a prefix of `hay` (character-exact). -/
def isPrefixChars : List Char → List Char → Bool
  | [], _ => true
  | _ :: _, [] => false
  | a :: as, b :: bs => a == b && isPrefixChars as bs

/-- Contiguous-substring test on character lists. -/
def containsChars (needle : List Char) : List Char → Bool
  | [] => isPrefixChars needle []
  | c :: t => isPrefixChars needle (c :: t) || containsChars needle t

/-- Go `strings.Contains`. -/
def goContains (s substr : String) : Bool := containsChars substr.data s.data

/-- Go `strings.ToLower` (ASCII view; the needle is ASCII). -/
def goToLower (s : String) : String := ⟨s.data.map Char.toLower⟩

/-- Database-layer errors; `recordNotFound` is `gorm.ErrRecordNotFound`. -/
inductive DbErr where
  | recordNotFound : DbErr
  | other (msg : String) : DbErr
deriving DecidableEq

/-- Provider-call errors of the Places API collaborators. -/
inductive ApiErr where
  | providerError (msg : String) : ApiErr
deriving DecidableEq

/-- The error cases `GetSuperchargerWithCache` can return: a wrapped
database query failure, a propagated provider error, or the raw error of
the cache-hit restaurants lookup (returned alongside the supercharger). -/
inductive CacheFlowErr where
  | dbQuery (e : DbErr) : CacheFlowErr
  | api (e : ApiErr) : CacheFlowErr
  | restaurants (e : DbErr) : CacheFlowErr
deriving DecidableEq

/-- The Go return triple. -/
structure CacheResult where
  supercharger : Option Supercharger
  restaurants : List RestaurantWithDistance
  err : Option CacheFlowErr

/-- The 500 m restaurant filter of the supercharger branch: skip
restaurants with a nil location or farther than 500 m, keep the rest with
their distances. -/
noncomputable def filterRestaurants (loc : PlaceLocation) (restos : List PlaceDetails) :
    List RestaurantWithDistance :=
  restos.filterMap fun restaurant =>
    match restaurant.Location with
    | none => none
    | some rloc =>
      if haversineDistance ⟨loc.Latitude, loc.Longitude⟩ ⟨rloc.Latitude, rloc.Longitude⟩ >
          500 then none
      else
        some ⟨⟨restaurant.ID, derefDisplayName restaurant.DisplayName,
          derefString restaurant.FormattedAddress, rloc.Latitude, rloc.Longitude,
          derefString restaurant.PrimaryType,
          derefDisplayName restaurant.PrimaryTypeDisplayName⟩,
          haversineDistance ⟨loc.Latitude, loc.Longitude⟩ ⟨rloc.Latitude, rloc.Longitude⟩⟩

/-- `GetSuperchargerWithCache` (maps package): database first; on
`gorm.ErrRecordNotFound` fetch details from the API; non-superchargers are
stored with `IsSupercharger = false`; superchargers get a restaurant
search and are stored with their restaurants.  Both store calls
(`Create`, `AddSuperchargerWithRestaurants`) only log their error — the
`createErr` / `addErr` outcomes never reach the returned triple.  Go
auto-dereferences `DisplayName.Text` and `Location.Latitude`; the model
reads them with a zero-value default (the claims only concern runs where
the fetch succeeded with populated fields). -/
noncomputable def GetSuperchargerWithCache
    (cacheGet : Except DbErr Supercharger)
    (cacheRestaurants : Except DbErr (List RestaurantWithDistance))
    (placeDetails : Except ApiErr PlaceDetails)
    (restaurantSearch : Except ApiErr (List PlaceDetails))
    (createErr : Option DbErr) (addErr : Option DbErr) : CacheResult :=
  match cacheGet with
  | Except.ok sc =>
    match cacheRestaurants with
    | Except.ok rs => ⟨some sc, rs, none⟩
    | Except.error e => ⟨some sc, [], some (CacheFlowErr.restaurants e)⟩
  | Except.error e =>
    if e ≠ DbErr.recordNotFound then ⟨none, [], some (CacheFlowErr.dbQuery e)⟩
    else
      match placeDetails with
      | Except.error e2 => ⟨none, [], some (CacheFlowErr.api e2)⟩
      | Except.ok det =>
        if goContains (goToLower ((det.DisplayName.getD ⟨""⟩).Text)) "supercharger" =
            false then
          ⟨some ⟨det.ID, derefDisplayName det.DisplayName,
            derefString det.FormattedAddress, (det.Location.getD ⟨0, 0⟩).Latitude,
            (det.Location.getD ⟨0, 0⟩).Longitude, false⟩, [], none⟩
        else
          match restaurantSearch with
          | Except.error e3 => ⟨none, [], some (CacheFlowErr.api e3)⟩
          | Except.ok restos =>
            ⟨some ⟨det.ID, derefDisplayName det.DisplayName,
              derefString det.FormattedAddress, (det.Location.getD ⟨0, 0⟩).Latitude,
              (det.Location.getD ⟨0, 0⟩).Longitude, true⟩,
              filterRestaurants (det.Location.getD ⟨0, 0⟩) restos, none⟩

/-- C8.  On a cache miss (record not found) with a successful detail fetch
and failing cache write-backs (`createErr` and `addErr` both errors), the
operation still returns the fetched entity and no error: the write
failures never reach the returned triple, in either the supercharger or
the non-supercharger branch. -/
theorem cacheWriteFailure_recovered
    (cacheRest : Except DbErr (List RestaurantWithDistance))
    (det : PlaceDetails) (restos : List PlaceDetails) (e1 e2 : DbErr) :
    (GetSuperchargerWithCache (Except.error DbErr.recordNotFound) cacheRest
        (Except.ok det) (Except.ok restos) (some e1) (some e2)).err = none ∧
      ∃ sc, (GetSuperchargerWithCache (Except.error DbErr.recordNotFound) cacheRest
        (Except.ok det) (Except.ok restos) (some e1) (some e2)).supercharger =
          some sc ∧ sc.PlaceID = det.ID := by
  by_cases hname : goContains (goToLower ((det.DisplayName.getD ⟨""⟩).Text))
      "supercharger" = false
  · simp only [GetSuperchargerWithCache, hname, if_true, ne_eq, not_true_eq_false,
      if_false, ite_true, ite_false, not_false_eq_true, reduceIte]
    exact ⟨trivial, _, rfl, rfl⟩
  · have htrue : goContains (goToLower ((det.DisplayName.getD ⟨""⟩).Text))
        "supercharger" = true := by
      revert hname
      cases goContains (goToLower ((det.DisplayName.getD ⟨""⟩).Text)) "supercharger" <;>
        simp
    simp only [GetSuperchargerWithCache, htrue, ne_eq, not_true_eq_false,
      if_false, ite_false, not_false_eq_true, reduceIte]
    rw [if_neg (by simp)]
    exact ⟨rfl, _, rfl, rfl⟩

/-! ## The cumulative route profile (GetSuperchargersOnRoute, maps package)

The profile-building loop decodes each step's polyline, scales the step's
static duration by the route-wide traffic multiplier, and distributes that
scaled duration over the step's points proportionally to distance
travelled within the step.  Steps whose polyline fails to decode or is
empty are skipped. -/

/-- Digit run of `strconv.Atoi`. -/
def digitsValAux : List Char → ℕ → Option ℕ
  | [], acc => some acc
  | c :: rest, acc =>
    if c.isDigit then digitsValAux rest (acc * 10 + (c.toNat - 48)) else none

/-- Go `strconv.Atoi`: optional sign, then at least one digit and nothing
else (the modelled values stay far below the int64 range). -/
def goAtoi (s : String) : Option ℤ :=
  match s.data with
  | [] => none
  | '+' :: rest =>
    match rest with
    | [] => none
    | _ => (digitsValAux rest 0).map (fun n => (n : ℤ))
  | '-' :: rest =>
    match rest with
    | [] => none
    | _ => (digitsValAux rest 0).map (fun n => -(n : ℤ))
  | l => (digitsValAux l 0).map (fun n => (n : ℤ))

/-- Go `strings.HasSuffix`. -/
def goHasSuffix (s suffix : String) : Bool :=
  isPrefixChars suffix.data.reverse s.data.reverse

/-- Go `strings.TrimSuffix`. -/
def goTrimSuffix (s suffix : String) : String :=
  if goHasSuffix s suffix then ⟨s.data.take (s.data.length - suffix.data.length)⟩ else s

/-- `parseDurationString` (maps package): strip a trailing `s` and parse;
fall back to parsing the raw string; default to 0. -/
def parseDurationString (durationStr : String) : ℤ :=
  match (if goHasSuffix durationStr "s" then goAtoi (goTrimSuffix durationStr "s")
      else none) with
  | some v => v
  | none =>
    match goAtoi durationStr with
    | some v => v
    | none => 0

/-- A route step as the profile loop consumes it: its static (traffic-free)
duration string and its encoded polyline. -/
structure RouteStep where
  StaticDuration : String
  EncodedPolyline : List ℕ

/-- Haversine length of the walk from `prev` through the listed points
(`totalStepDist` accumulation of the source). -/
noncomputable def pathDistFrom : Center → List Center → ℝ
  | _, [] => 0
  | prev, p :: rest => haversineDistance prev p + pathDistFrom p rest

/-- The distance fraction of a point inside its step (`fraction` in the
source: zero when the step has no length). -/
noncomputable def stepFraction (totalStepDist s : ℝ) : ℝ :=
  if totalStepDist > 0 then s / totalStepDist else 0

/-- The inner point loop of the profile builder, after the step's first
point: accumulate `stepCumDist` and emit each point with its interpolated
cumulative duration. -/
noncomputable def stepProfilePoints (cumDist : ℝ) (cumDur trafficStepDur : ℤ)
    (totalStepDist : ℝ) : Center → ℝ → List Center → List CumPoint
  | _, _, [] => []
  | prev, stepCumDist, p :: rest =>
    ⟨p.Latitude, p.Longitude,
      (cumDist + (stepCumDist + haversineDistance prev p)) / 1000,
      cumDur + goTrunc ((trafficStepDur : ℝ) *
        stepFraction totalStepDist (stepCumDist + haversineDistance prev p))⟩ ::
    stepProfilePoints cumDist cumDur trafficStepDur totalStepDist p
      (stepCumDist + haversineDistance prev p) rest

/-- One step's emitted profile points: the step's first point carries the
running totals unchanged, the rest interpolate. -/
noncomputable def stepProfile (cumDist : ℝ) (cumDur trafficStepDur : ℤ)
    (totalStepDist : ℝ) (pts : List Center) : List CumPoint :=
  match pts with
  | [] => []
  | p0 :: rest =>
    ⟨p0.Latitude, p0.Longitude, cumDist / 1000, cumDur⟩ ::
      stepProfilePoints cumDist cumDur trafficStepDur totalStepDist p0 0 rest

/-- The step loop of the profile builder: skip undecodable or empty steps,
otherwise emit the step's points and advance the running totals by the
step's length and its traffic-scaled duration. -/
noncomputable def buildProfileAux (multiplier : ℝ) :
    List RouteStep → ℝ → ℤ → List CumPoint
  | [], _, _ => []
  | step :: rest, cumDist, cumDur =>
    match DecodePolyline step.EncodedPolyline with
    | none => buildProfileAux multiplier rest cumDist cumDur
    | some [] => buildProfileAux multiplier rest cumDist cumDur
    | some (p0 :: pts) =>
      stepProfile cumDist cumDur
        (goTrunc ((parseDurationString step.StaticDuration : ℝ) * multiplier))
        (pathDistFrom p0 pts) (p0 :: pts) ++
      buildProfileAux multiplier rest (cumDist + pathDistFrom p0 pts)
        (cumDur + goTrunc ((parseDurationString step.StaticDuration : ℝ) * multiplier))

/-- The whole profile construction: traffic multiplier (total traffic-aware
duration over summed static durations, defaulting to 1), then the step
loop from zeroed totals. -/
noncomputable def buildCumulativeProfile (totalTrafficDur : ℤ)
    (steps : List RouteStep) : List CumPoint :=
  buildProfileAux
    (if 0 < (steps.map fun st => parseDurationString st.StaticDuration).sum then
      (totalTrafficDur : ℝ) /
        (((steps.map fun st => parseDurationString st.StaticDuration).sum : ℤ) : ℝ)
    else 1) steps 0 0

/-- The claimed profile invariant: both cumulative fields non-decreasing. -/
def profileMono (p q : CumPoint) : Prop :=
  p.CumDistKm ≤ q.CumDistKm ∧ p.CumDurSeconds ≤ q.CumDurSeconds

theorem pathDistFrom_nonneg (prev : Center) (l : List Center) :
    0 ≤ pathDistFrom prev l := by
  induction l generalizing prev with
  | nil => simp [pathDistFrom]
  | cons p rest ih =>
    unfold pathDistFrom
    exact add_nonneg (haversineDistance_nonneg _ _) (ih p)

theorem goTrunc_nonneg {x : ℝ} (h : 0 ≤ x) : 0 ≤ goTrunc x := by
  rw [goTrunc_of_nonneg h]
  exact Int.floor_nonneg.mpr h

theorem goTrunc_mono_of_nonneg {a b : ℝ} (ha : 0 ≤ a) (hab : a ≤ b) :
    goTrunc a ≤ goTrunc b := by
  rw [goTrunc_of_nonneg ha, goTrunc_of_nonneg (ha.trans hab)]
  exact Int.floor_le_floor hab

theorem stepFraction_nonneg {tot s : ℝ} (hs : 0 ≤ s) : 0 ≤ stepFraction tot s := by
  unfold stepFraction
  by_cases h : tot > 0
  · rw [if_pos h]
    exact div_nonneg hs h.le
  · rw [if_neg h]

theorem stepFraction_mono {tot s1 s2 : ℝ} (h12 : s1 ≤ s2) :
    stepFraction tot s1 ≤ stepFraction tot s2 := by
  unfold stepFraction
  by_cases h : tot > 0
  · simp only [if_pos h]
    exact (div_le_div_right h).mpr h12
  · simp only [if_neg h]
    exact le_rfl

/-- Monotonicity of a point's interpolated duration in its step fraction. -/
theorem stepDur_mono {td : ℤ} {tot s1 s2 : ℝ} (htd : 0 ≤ td) (hs1 : 0 ≤ s1)
    (h12 : s1 ≤ s2) :
    goTrunc ((td : ℝ) * stepFraction tot s1) ≤ goTrunc ((td : ℝ) * stepFraction tot s2) := by
  have htd' : (0 : ℝ) ≤ (td : ℝ) := by exact_mod_cast htd
  exact goTrunc_mono_of_nonneg (mul_nonneg htd' (stepFraction_nonneg hs1))
    (mul_le_mul_of_nonneg_left (stepFraction_mono h12) htd')

theorem stepProfilePoints_chain (cumDist : ℝ) (cumDur td : ℤ) (tot : ℝ)
    (htd : 0 ≤ td) :
    ∀ (rest : List Center) (prev : Center) (s : ℝ), 0 ≤ s →
      List.Chain' profileMono (stepProfilePoints cumDist cumDur td tot prev s rest) := by
  intro rest
  induction rest with
  | nil =>
    intro prev s _
    simp [stepProfilePoints]
  | cons p rest ih =>
    intro prev s hs
    have hs' : 0 ≤ s + haversineDistance prev p :=
      add_nonneg hs (haversineDistance_nonneg _ _)
    show List.Chain' profileMono (_ ::
      stepProfilePoints cumDist cumDur td tot p (s + haversineDistance prev p) rest)
    rw [List.chain'_cons']
    refine ⟨?_, ih p (s + haversineDistance prev p) hs'⟩
    intro q hq
    cases rest with
    | nil => simp [stepProfilePoints] at hq
    | cons p2 rest2 =>
      have hq' : q = ⟨p2.Latitude, p2.Longitude,
          (cumDist + ((s + haversineDistance prev p) + haversineDistance p p2)) / 1000,
          cumDur + goTrunc ((td : ℝ) * stepFraction tot
            ((s + haversineDistance prev p) + haversineDistance p p2))⟩ := by
        simp [stepProfilePoints] at hq
        exact hq.symm
      subst hq'
      constructor
      · exact (div_le_div_right (by norm_num : (0:ℝ) < 1000)).mpr
          (by linarith [haversineDistance_nonneg p p2])
      · exact add_le_add_left
          (stepDur_mono htd hs' (by linarith [haversineDistance_nonneg p p2])) _

theorem stepProfile_chain (cumDist : ℝ) (cumDur td : ℤ) (tot : ℝ) (htd : 0 ≤ td)
    (pts : List Center) :
    List.Chain' profileMono (stepProfile cumDist cumDur td tot pts) := by
  cases pts with
  | nil => simp [stepProfile]
  | cons p0 rest =>
    show List.Chain' profileMono (_ :: stepProfilePoints cumDist cumDur td tot p0 0 rest)
    rw [List.chain'_cons']
    refine ⟨?_, stepProfilePoints_chain cumDist cumDur td tot htd rest p0 0 le_rfl⟩
    intro q hq
    cases rest with
    | nil => simp [stepProfilePoints] at hq
    | cons p1 rest1 =>
      have hq' : q = ⟨p1.Latitude, p1.Longitude,
          (cumDist + haversineDistance p0 p1) / 1000,
          cumDur + goTrunc ((td : ℝ) * stepFraction tot (haversineDistance p0 p1))⟩ := by
        simp [stepProfilePoints] at hq
        exact hq.symm
      subst hq'
      constructor
      · show cumDist / 1000 ≤ (cumDist + haversineDistance p0 p1) / 1000
        exact (div_le_div_right (by norm_num : (0:ℝ) < 1000)).mpr
          (by linarith [haversineDistance_nonneg p0 p1])
      · show cumDur ≤ cumDur +
          goTrunc ((td : ℝ) * stepFraction tot (haversineDistance p0 p1))
        have h0 : (0 : ℤ) ≤ goTrunc ((td : ℝ) * stepFraction tot
            (haversineDistance p0 p1)) := by
          apply goTrunc_nonneg
          apply mul_nonneg (by exact_mod_cast htd)
          exact stepFraction_nonneg (haversineDistance_nonneg p0 p1)
        omega

theorem stepProfilePoints_getLast (cumDist : ℝ) (cumDur td : ℤ) (tot : ℝ) :
    ∀ (rest : List Center) (prev : Center) (s : ℝ), rest ≠ [] →
      ∃ q, (stepProfilePoints cumDist cumDur td tot prev s rest).getLast? = some q ∧
        q.CumDistKm = (cumDist + (s + pathDistFrom prev rest)) / 1000 ∧
        q.CumDurSeconds = cumDur +
          goTrunc ((td : ℝ) * stepFraction tot (s + pathDistFrom prev rest)) := by
  intro rest
  induction rest with
  | nil => intro prev s hne; exact absurd rfl hne
  | cons p rest ih =>
    intro prev s _
    cases rest with
    | nil =>
      refine ⟨⟨p.Latitude, p.Longitude,
        (cumDist + (s + haversineDistance prev p)) / 1000,
        cumDur + goTrunc ((td : ℝ) * stepFraction tot
          (s + haversineDistance prev p))⟩, ?_, ?_, ?_⟩
      · rfl
      · show (cumDist + (s + haversineDistance prev p)) / 1000 =
          (cumDist + (s + pathDistFrom prev [p])) / 1000
        simp [pathDistFrom]
      · show cumDur + goTrunc ((td : ℝ) * stepFraction tot
            (s + haversineDistance prev p)) = cumDur +
          goTrunc ((td : ℝ) * stepFraction tot (s + pathDistFrom prev [p]))
        simp [pathDistFrom]
    | cons p2 rest2 =>
      obtain ⟨q, hq, h1, h2⟩ := ih p (s + haversineDistance prev p) (by simp)
      refine ⟨q, ?_, ?_, ?_⟩
      · show (_ :: stepProfilePoints cumDist cumDur td tot p
            (s + haversineDistance prev p) (p2 :: rest2)).getLast? = some q
        rw [show stepProfilePoints cumDist cumDur td tot p
            (s + haversineDistance prev p) (p2 :: rest2) = _ :: stepProfilePoints
              cumDist cumDur td tot p2
              ((s + haversineDistance prev p) + haversineDistance p p2) rest2 from rfl]
        rw [List.getLast?_cons_cons]
        rw [← show stepProfilePoints cumDist cumDur td tot p
            (s + haversineDistance prev p) (p2 :: rest2) = _ :: stepProfilePoints
              cumDist cumDur td tot p2
              ((s + haversineDistance prev p) + haversineDistance p p2) rest2 from rfl]
        exact hq
      · rw [h1]
        show (cumDist + (s + haversineDistance prev p + pathDistFrom p (p2 :: rest2))) / 1000 =
          (cumDist + (s + pathDistFrom prev (p :: p2 :: rest2))) / 1000
        rw [show pathDistFrom prev (p :: p2 :: rest2) =
          haversineDistance prev p + pathDistFrom p (p2 :: rest2) from rfl]
        ring_nf
      · rw [h2]
        rw [show pathDistFrom prev (p :: p2 :: rest2) =
          haversineDistance prev p + pathDistFrom p (p2 :: rest2) from rfl]
        rw [show s + haversineDistance prev p + pathDistFrom p (p2 :: rest2) =
          s + (haversineDistance prev p + pathDistFrom p (p2 :: rest2)) from by ring]

theorem stepProfile_getLast (cumDist : ℝ) (cumDur td : ℤ) (htd : 0 ≤ td)
    (p0 : Center) (pts : List Center) :
    ∃ q, (stepProfile cumDist cumDur td (pathDistFrom p0 pts) (p0 :: pts)).getLast? =
        some q ∧
      q.CumDistKm = (cumDist + pathDistFrom p0 pts) / 1000 ∧
      q.CumDurSeconds ≤ cumDur + td := by
  cases pts with
  | nil =>
    refine ⟨⟨p0.Latitude, p0.Longitude, cumDist / 1000, cumDur⟩, rfl, ?_, ?_⟩
    · show cumDist / 1000 = (cumDist + pathDistFrom p0 []) / 1000
      simp [pathDistFrom]
    · show cumDur ≤ cumDur + td
      omega
  | cons p1 rest =>
    obtain ⟨q, hq, h1, h2⟩ :=
      stepProfilePoints_getLast cumDist cumDur td (pathDistFrom p0 (p1 :: rest))
        (p1 :: rest) p0 0 (by simp)
    refine ⟨q, ?_, ?_, ?_⟩
    · show (_ :: stepProfilePoints cumDist cumDur td
          (pathDistFrom p0 (p1 :: rest)) p0 0 (p1 :: rest)).getLast? = some q
      rw [show stepProfilePoints cumDist cumDur td (pathDistFrom p0 (p1 :: rest)) p0 0
          (p1 :: rest) = _ :: stepProfilePoints cumDist cumDur td
            (pathDistFrom p0 (p1 :: rest)) p1 (0 + haversineDistance p0 p1) rest from rfl]
      rw [List.getLast?_cons_cons]
      rw [← show stepProfilePoints cumDist cumDur td (pathDistFrom p0 (p1 :: rest)) p0 0
          (p1 :: rest) = _ :: stepProfilePoints cumDist cumDur td
            (pathDistFrom p0 (p1 :: rest)) p1 (0 + haversineDistance p0 p1) rest from rfl]
      exact hq
    · rw [h1]
      ring_nf
    · rw [h2]
      have htot : 0 ≤ pathDistFrom p0 (p1 :: rest) := pathDistFrom_nonneg _ _
      rcases lt_or_eq_of_le htot with hpos | hzero
      · have hfr : stepFraction (pathDistFrom p0 (p1 :: rest))
            (0 + pathDistFrom p0 (p1 :: rest)) = 1 := by
          unfold stepFraction
          rw [if_pos hpos, zero_add, div_self (ne_of_gt hpos)]
        rw [hfr, mul_one, goTrunc_intCast]
      · have hfr : stepFraction (pathDistFrom p0 (p1 :: rest))
            (0 + pathDistFrom p0 (p1 :: rest)) = 0 := by
          unfold stepFraction
          rw [if_neg (by rw [← hzero]; exact lt_irrefl 0)]
        rw [hfr, mul_zero]
        have : goTrunc (0 : ℝ) = 0 := by
          rw [show ((0 : ℝ)) = ((0 : ℤ) : ℝ) from by norm_num, goTrunc_intCast]
        rw [this]
        omega

theorem buildProfileAux_head (mult : ℝ) :
    ∀ (steps : List RouteStep) (c : ℝ) (d : ℤ),
      ∀ q ∈ (buildProfileAux mult steps c d).head?,
        q.CumDistKm = c / 1000 ∧ q.CumDurSeconds = d := by
  intro steps
  induction steps with
  | nil =>
    intro c d q hq
    simp [buildProfileAux] at hq
  | cons st rest ih =>
    intro c d q hq
    unfold buildProfileAux at hq
    cases hdec : DecodePolyline st.EncodedPolyline with
    | none =>
      rw [hdec] at hq
      exact ih c d q hq
    | some pts =>
      rw [hdec] at hq
      cases pts with
      | nil => exact ih c d q hq
      | cons p0 pts2 =>
        have hq' : q = ⟨p0.Latitude, p0.Longitude, c / 1000, d⟩ := by
          simp [stepProfile] at hq
          exact hq.symm
        subst hq'
        exact ⟨rfl, rfl⟩

theorem buildProfileAux_chain (mult : ℝ) (hm : 0 ≤ mult) :
    ∀ (steps : List RouteStep),
      (∀ st ∈ steps, 0 ≤ parseDurationString st.StaticDuration) →
      ∀ (c : ℝ) (d : ℤ), List.Chain' profileMono (buildProfileAux mult steps c d) := by
  intro steps
  induction steps with
  | nil =>
    intro _ c d
    simp [buildProfileAux]
  | cons st rest ih =>
    intro hsteps c d
    have hst : 0 ≤ parseDurationString st.StaticDuration :=
      hsteps st (List.mem_cons_self _ _)
    have hrest : ∀ st2 ∈ rest, 0 ≤ parseDurationString st2.StaticDuration :=
      fun st2 h2 => hsteps st2 (List.mem_cons_of_mem _ h2)
    show List.Chain' profileMono (buildProfileAux mult (st :: rest) c d)
    unfold buildProfileAux
    cases hdec : DecodePolyline st.EncodedPolyline with
    | none => exact ih hrest c d
    | some pts =>
      cases pts with
      | nil => exact ih hrest c d
      | cons p0 pts2 =>
        have htd : 0 ≤ goTrunc ((parseDurationString st.StaticDuration : ℝ) * mult) := by
          apply goTrunc_nonneg
          exact mul_nonneg (by exact_mod_cast hst) hm
        rw [List.chain'_append]
        refine ⟨stepProfile_chain _ _ _ _ htd _, ih hrest _ _, ?_⟩
        intro x hx y hy
        obtain ⟨q, hq, h1, h2⟩ := stepProfile_getLast c d
          (goTrunc ((parseDurationString st.StaticDuration : ℝ) * mult)) htd p0 pts2
        rw [hq] at hx
        have hxq : x = q := by
          simp at hx
          exact hx.symm
        subst hxq
        have hy2 := buildProfileAux_head mult rest
          (c + pathDistFrom p0 pts2)
          (d + goTrunc ((parseDurationString st.StaticDuration : ℝ) * mult)) y hy
        constructor
        · rw [h1, hy2.1]
        · rw [hy2.2]
          exact h2

/-- C6.  For a well-formed route (non-negative traffic-aware total
duration) and a well-formed step list (every step's parsed static duration
non-negative), the cumulative profile has both its cumulative distance and
its cumulative duration non-decreasing across the whole point sequence,
including across step boundaries; undecodable or empty steps are skipped
and do not break the invariant. -/
theorem buildProfile_monotone (totalTrafficDur : ℤ) (steps : List RouteStep)
    (h1 : 0 ≤ totalTrafficDur)
    (h2 : ∀ st ∈ steps, 0 ≤ parseDurationString st.StaticDuration) :
    List.Chain' profileMono (buildCumulativeProfile totalTrafficDur steps) := by
  unfold buildCumulativeProfile
  apply buildProfileAux_chain _ ?_ steps h2 0 0
  by_cases hsum : 0 < (steps.map fun st => parseDurationString st.StaticDuration).sum
  · rw [if_pos hsum]
    apply div_nonneg (by exact_mod_cast h1)
    exact_mod_cast hsum.le
  · rw [if_neg hsum]
    norm_num

/-- Witness for C6: a single step with a 100 s static duration and a
two-point polyline, total duration 7200 s. -/
theorem buildProfile_monotone_witness :
    List.Chain' profileMono
      (buildCumulativeProfile 7200
        [⟨"100s", encodeIntPolyline 0 0 [(100, 200), (150, 260)]⟩]) := by
  apply buildProfile_monotone 7200
    [⟨"100s", encodeIntPolyline 0 0 [(100, 200), (150, 260)]⟩] (by norm_num)
  intro st hst
  have hst' : st = (⟨"100s", encodeIntPolyline 0 0 [(100, 200), (150, 260)]⟩ : RouteStep) := by
    simpa using hst
  subst hst'
  show (0 : ℤ) ≤ parseDurationString "100s"
  decide

/-! ## C9: indexed vs exhaustive nearest-point query -/

theorem range_one_eq : List.range 1 = [0] := by decide

theorem range_two_eq : List.range 2 = [0, 1] := by decide

theorem goTrunc_one : goTrunc (1 : ℝ) = 1 := by
  rw [show (1 : ℝ) = ((1 : ℤ) : ℝ) from by norm_num, goTrunc_intCast]

theorem goTrunc_two : goTrunc (2 : ℝ) = 2 := by
  rw [show (2 : ℝ) = ((2 : ℤ) : ℝ) from by norm_num, goTrunc_intCast]

theorem goTrunc_three : goTrunc (3 : ℝ) = 3 := by
  rw [show (3 : ℝ) = ((3 : ℤ) : ℝ) from by norm_num, goTrunc_intCast]

/-- Both branches of `distanceToSegment` are haversine distances, so the
initial `math.MaxFloat64` minimum is always beaten. -/
theorem distanceToSegment_lt_maxFloat64 (p v w : Center) :
    distanceToSegment p v w < maxFloat64 := by
  unfold distanceToSegment
  by_cases h : (v.Latitude - w.Latitude) * (v.Latitude - w.Latitude) +
      (v.Longitude - w.Longitude) * (v.Longitude - w.Longitude) = 0
  · rw [if_pos h]
    exact haversineDistance_lt_maxFloat64 p v
  · rw [if_neg h]
    exact haversineDistance_lt_maxFloat64 p _

theorem scanVal_fst (point : Center) (sc : SegCand) :
    (scanVal point sc).1 = distanceToSegment point sc.p1 sc.p2 := by
  unfold scanVal
  by_cases h : (sc.p1.Latitude - sc.p2.Latitude) * (sc.p1.Latitude - sc.p2.Latitude) +
      (sc.p1.Longitude - sc.p2.Longitude) * (sc.p1.Longitude - sc.p2.Longitude) = 0
  · rw [if_pos h]
  · rw [if_neg h]

theorem scanStep_of_lt (point : Center) (st : ℝ × ℝ × Center) (sc : SegCand)
    (h : distanceToSegment point sc.p1 sc.p2 < st.1) :
    scanStep point st sc = scanVal point sc := by
  unfold scanStep
  rw [if_pos h]

theorem scanStep_of_not_lt (point : Center) (st : ℝ × ℝ × Center) (sc : SegCand)
    (h : ¬ distanceToSegment point sc.p1 sc.p2 < st.1) :
    scanStep point st sc = st := by
  unfold scanStep
  rw [if_neg h]

/-- A scan state that no candidate beats survives the fold unchanged. -/
theorem scanFold_keep (point : Center) :
    ∀ (L : List SegCand) (st : ℝ × ℝ × Center),
      (∀ d ∈ L, ¬ distanceToSegment point d.p1 d.p2 < st.1) →
      L.foldl (scanStep point) st = st
  | [], _, _ => rfl
  | a :: rest, st, h => by
    rw [List.foldl_cons, scanStep_of_not_lt point st a (h a (List.mem_cons_self a rest))]
    exact scanFold_keep point rest st fun d hd => h d (List.mem_cons_of_mem a hd)

/-- If one candidate strictly beats every other candidate of the list (and
the initial state), the min-scan returns exactly that candidate's triple,
regardless of candidate order or duplicates. -/
theorem scanFold_argmin (point : Center) (c : SegCand) :
    ∀ (L : List SegCand) (st : ℝ × ℝ × Center),
      c ∈ L →
      (∀ d ∈ L, d = c ∨
        distanceToSegment point c.p1 c.p2 < distanceToSegment point d.p1 d.p2) →
      distanceToSegment point c.p1 c.p2 < st.1 →
      L.foldl (scanStep point) st = scanVal point c
  | [], _, hmem, _, _ => absurd hmem (List.not_mem_nil _)
  | a :: rest, st, hmem, hmin, hst => by
    by_cases hac : a = c
    · subst hac
      rw [List.foldl_cons, scanStep_of_lt point st a hst]
      apply scanFold_keep point rest (scanVal point a)
      intro d hd
      rw [scanVal_fst]
      rcases hmin d (List.mem_cons_of_mem a hd) with h | h
      · rw [h]
        exact lt_irrefl _
      · exact not_lt.mpr h.le
    · have hcrest : c ∈ rest := by
        rcases List.mem_cons.mp hmem with h | h
        · exact absurd h.symm hac
        · exact h
      have hca : distanceToSegment point c.p1 c.p2 <
          distanceToSegment point a.p1 a.p2 := by
        rcases hmin a (List.mem_cons_self a rest) with h | h
        · exact absurd h hac
        · exact h
      rw [List.foldl_cons]
      apply scanFold_argmin point c rest (scanStep point st a) hcrest
        (fun d hd => hmin d (List.mem_cons_of_mem a hd))
      by_cases hup : distanceToSegment point a.p1 a.p2 < st.1
      · rw [scanStep_of_lt point st a hup, scanVal_fst]
        exact hca
      · rw [scanStep_of_not_lt point st a hup]
        exact hst

theorem buildPolylineIndex_polyline {polyline : List Center} {gridSize : ℝ}
    {idx : PolylineIndex} (h : buildPolylineIndex polyline gridSize = some idx) :
    idx.polyline = polyline := by
  unfold buildPolylineIndex at h
  by_cases h2 : polyline.length < 2
  · rw [if_pos h2] at h
    exact absurd h (by simp)
  · rw [if_neg h2] at h
    rw [← Option.some.inj h]

theorem buildPolylineIndex_length {polyline : List Center} {gridSize : ℝ}
    {idx : PolylineIndex} (h : buildPolylineIndex polyline gridSize = some idx) :
    ¬ polyline.length < 2 := by
  intro h2
  unfold buildPolylineIndex at h
  rw [if_pos h2] at h
  exact Option.noConfusion h

/-- The haversine formula sees the longitudes only through the squared sine
of half the longitude difference, so negating that difference preserves the
distance. -/
theorem havA_lonFlip (p : Center) (la v v' : ℝ)
    (h : v - p.Longitude = -(v' - p.Longitude)) :
    havA p ⟨la, v⟩ = havA p ⟨la, v'⟩ := by
  unfold havA
  dsimp only
  have harg : (v' * Real.pi / 180 - p.Longitude * Real.pi / 180) / 2 =
      -((v * Real.pi / 180 - p.Longitude * Real.pi / 180) / 2) := by
    have h2 : v' - p.Longitude = -(v - p.Longitude) := by linarith
    rw [show v' * Real.pi / 180 - p.Longitude * Real.pi / 180 =
        (v' - p.Longitude) * (Real.pi / 180) from by ring, h2]
    ring
  rw [harg, Real.sin_neg]
  ring

theorem haversineDistance_lonFlip (p : Center) (la v v' : ℝ)
    (h : v - p.Longitude = -(v' - p.Longitude)) :
    haversineDistance p ⟨la, v⟩ = haversineDistance p ⟨la, v'⟩ := by
  unfold haversineDistance
  rw [havA_lonFlip p la v v' h]

/-- C9 (amended).  The indexed query agrees with the exhaustive scan
whenever its gathered candidate list (a) only contains real segments of
the path, and (b) contains a candidate that strictly minimises the
segment distance among all segments of the path.  Both folds then return
that candidate's triple.  (Without (b) the two scans can disagree on
ties, because they visit the candidates in different orders and keep the
first strict minimum: see the counterexample.) -/
theorem indexedQuery_agrees (point : Center) (polyline : List Center)
    (gridSize : ℝ) (idx : PolylineIndex)
    (hidx : buildPolylineIndex polyline gridSize = some idx)
    (c : SegCand) (hc : c ∈ indexedCands point idx)
    (hsub : ∀ d ∈ indexedCands point idx, d ∈ segCands polyline 0)
    (hmin : ∀ d ∈ segCands polyline 0, d = c ∨
      distanceToSegment point c.p1 c.p2 < distanceToSegment point d.p1 d.p2) :
    distanceToPolylineWithIndex point (buildPolylineIndex polyline gridSize) =
      some (distanceToPolyline point polyline) := by
  have hpl : idx.polyline = polyline := buildPolylineIndex_polyline hidx
  have hlen : ¬ idx.polyline.length < 2 := by
    rw [hpl]
    exact buildPolylineIndex_length hidx
  have hgne : ¬ gatherCands point idx = [] := by
    intro h0
    rw [indexedCands, h0] at hc
    simp [dedupByStart] at hc
  rw [hidx]
  show (if idx.polyline.length < 2 then some (distanceToPolyline point idx.polyline)
    else if gatherCands point idx = [] then some (distanceToPolyline point idx.polyline)
    else some ((indexedCands point idx).foldl (scanStep point) (maxFloat64, 0, ⟨0, 0⟩))) =
    some (distanceToPolyline point polyline)
  rw [if_neg hlen, if_neg hgne]
  congr 1
  have hfirst : distanceToSegment point c.p1 c.p2 < maxFloat64 :=
    distanceToSegment_lt_maxFloat64 point c.p1 c.p2
  rw [scanFold_argmin point c (indexedCands point idx) (maxFloat64, 0, ⟨0, 0⟩) hc
    (fun d hd => hmin d (hsub d hd)) hfirst]
  unfold distanceToPolyline
  rw [scanFold_argmin point c (segCands polyline 0) (maxFloat64, 0, ⟨0, 0⟩) (hsub c hc)
    hmin hfirst]

theorem indexedQuery_agrees_witness :
    distanceToPolylineWithIndex ⟨0, 0⟩
        (buildPolylineIndex [⟨0, 0⟩, ⟨0, 0⟩] (0.01 : ℝ)) =
      some (distanceToPolyline ⟨0, 0⟩ [⟨0, 0⟩, ⟨0, 0⟩]) := by
  have hg0 : ([⟨0, 0⟩, ⟨0, 0⟩] : List Center).getD 0 ⟨0, 0⟩ = ⟨0, 0⟩ := rfl
  have hg1 : ([⟨0, 0⟩, ⟨0, 0⟩] : List Center).getD 1 ⟨0, 0⟩ = ⟨0, 0⟩ := rfl
  have hseg : segCands [⟨0, 0⟩, ⟨0, 0⟩] (0 : ℝ) = [⟨⟨0, 0⟩, ⟨0, 0⟩, 0⟩] := rfl
  have hcands : indexedCands ⟨0, 0⟩
      ((buildPolylineIndex [⟨0, 0⟩, ⟨0, 0⟩] (0.01 : ℝ)).getD
        ⟨0, 0, 0, 0, 0, 0, 0, fun _ _ => [], []⟩) =
      [⟨⟨0, 0⟩, ⟨0, 0⟩, 0⟩] := by
    norm_num [indexedCands, gatherCands, buildPolylineIndex, dedupByStart,
      goTrunc_one, min_def, max_def, range_one_eq, List.filterMap_cons,
      cumDistAt, hg0, hg1, List.foldl_cons, List.foldl_nil]
  refine indexedQuery_agrees ⟨0, 0⟩ [⟨0, 0⟩, ⟨0, 0⟩] 0.01
    ((buildPolylineIndex [⟨0, 0⟩, ⟨0, 0⟩] (0.01 : ℝ)).getD
      ⟨0, 0, 0, 0, 0, 0, 0, fun _ _ => [], []⟩) rfl
    ⟨⟨0, 0⟩, ⟨0, 0⟩, 0⟩ ?_ ?_ ?_
  · rw [hcands]
    exact List.mem_singleton.mpr rfl
  · intro d hd
    rw [hcands] at hd
    rw [List.mem_singleton.mp hd, hseg]
    exact List.mem_singleton.mpr rfl
  · intro d hd
    rw [hseg] at hd
    left
    exact List.mem_singleton.mp hd

/-- The counterexample path: two segments mirror-symmetric about the
longitude line 0.01, so the query point on that line is exactly
equidistant from both. -/
noncomputable def cexPolyline : List Center := [⟨0.02, 0.02⟩, ⟨0.01, 0.01⟩, ⟨0.02, 0⟩]

/-- The counterexample query point, on the path's mirror axis. -/
noncomputable def cexPoint : Center := ⟨0.02, 0.01⟩

theorem cex_len : cexPolyline.length = 3 := rfl

/-- The index the code builds for the counterexample path (gridSize 0.01,
the value used at the call site). -/
noncomputable def cexIndex : PolylineIndex :=
  (buildPolylineIndex cexPolyline (0.01 : ℝ)).getD ⟨0, 0, 0, 0, 0, 0, 0, fun _ _ => [], []⟩

theorem cexIndex_some : buildPolylineIndex cexPolyline (0.01 : ℝ) = some cexIndex := rfl

theorem cexIndex_polyline : cexIndex.polyline = cexPolyline :=
  buildPolylineIndex_polyline cexIndex_some

/-- The 3x3 neighborhood of the query point's cell gathers the second
segment from cells (1,1) and (2,1) before any cell containing the first
segment, so it comes first in the candidate list. -/
theorem cex_gather : gatherCands cexPoint cexIndex =
    [⟨1, 2, cumDistAt cexPolyline 1⟩, ⟨0, 1, cumDistAt cexPolyline 0⟩,
     ⟨1, 2, cumDistAt cexPolyline 1⟩, ⟨0, 1, cumDistAt cexPolyline 0⟩,
     ⟨1, 2, cumDistAt cexPolyline 1⟩, ⟨0, 1, cumDistAt cexPolyline 0⟩,
     ⟨1, 2, cumDistAt cexPolyline 1⟩, ⟨0, 1, cumDistAt cexPolyline 0⟩] := by
  norm_num [gatherCands, cexIndex, cexPoint, cexPolyline, buildPolylineIndex,
    goTrunc_one, goTrunc_two, goTrunc_three, min_def, max_def, range_two_eq,
    List.filterMap_cons, List.foldl_cons, List.foldl_nil]

/-- After dedup by start index, the indexed scan visits the second segment
first, then the first segment: the reverse of the path order. -/
theorem cex_cands : indexedCands cexPoint cexIndex =
    [⟨⟨0.01, 0.01⟩, ⟨0.02, 0⟩, cumDistAt cexPolyline 1⟩,
     ⟨⟨0.02, 0.02⟩, ⟨0.01, 0.01⟩, cumDistAt cexPolyline 0⟩] := by
  rw [indexedCands, cex_gather]
  norm_num [dedupByStart, cexIndex_polyline, cexPolyline]

theorem cex_distA : distanceToSegment cexPoint ⟨0.02, 0.02⟩ ⟨0.01, 0.01⟩ =
    haversineDistance cexPoint ⟨0.015, 0.015⟩ := by
  unfold distanceToSegment
  rw [if_neg (by norm_num)]
  congr 1
  norm_num [cexPoint, min_def, max_def]

theorem cex_distB : distanceToSegment cexPoint ⟨0.01, 0.01⟩ ⟨0.02, 0⟩ =
    haversineDistance cexPoint ⟨0.015, 0.005⟩ := by
  unfold distanceToSegment
  rw [if_neg (by norm_num)]
  congr 1
  norm_num [cexPoint, min_def, max_def]

/-- The tie: the projections onto the two segments are reflections of each
other in the query point's longitude, so their haversine distances agree
exactly. -/
theorem cex_dAB : distanceToSegment cexPoint ⟨0.02, 0.02⟩ ⟨0.01, 0.01⟩ =
    distanceToSegment cexPoint ⟨0.01, 0.01⟩ ⟨0.02, 0⟩ := by
  rw [cex_distA, cex_distB]
  apply haversineDistance_lonFlip
  norm_num [cexPoint]

theorem cex_segCands : segCands cexPolyline 0 =
    [⟨⟨0.02, 0.02⟩, ⟨0.01, 0.01⟩, 0⟩,
     ⟨⟨0.01, 0.01⟩, ⟨0.02, 0⟩, 0 + haversineDistance ⟨0.02, 0.02⟩ ⟨0.01, 0.01⟩⟩] := rfl

/-- The exhaustive scan sees the first segment first and keeps it over the
tied second segment. -/
theorem cex_exh : distanceToPolyline cexPoint cexPolyline =
    scanVal cexPoint ⟨⟨0.02, 0.02⟩, ⟨0.01, 0.01⟩, 0⟩ := by
  have hstepA : scanStep cexPoint (maxFloat64, 0, ⟨0, 0⟩)
      ⟨⟨0.02, 0.02⟩, ⟨0.01, 0.01⟩, 0⟩ =
      scanVal cexPoint ⟨⟨0.02, 0.02⟩, ⟨0.01, 0.01⟩, 0⟩ :=
    scanStep_of_lt _ _ _ (distanceToSegment_lt_maxFloat64 _ _ _)
  have hstepAB : scanStep cexPoint (scanVal cexPoint ⟨⟨0.02, 0.02⟩, ⟨0.01, 0.01⟩, 0⟩)
      ⟨⟨0.01, 0.01⟩, ⟨0.02, 0⟩, 0 + haversineDistance ⟨0.02, 0.02⟩ ⟨0.01, 0.01⟩⟩ =
      scanVal cexPoint ⟨⟨0.02, 0.02⟩, ⟨0.01, 0.01⟩, 0⟩ := by
    apply scanStep_of_not_lt
    show ¬ distanceToSegment cexPoint ⟨0.01, 0.01⟩ ⟨0.02, 0⟩ <
      (scanVal cexPoint ⟨⟨0.02, 0.02⟩, ⟨0.01, 0.01⟩, 0⟩).1
    rw [scanVal_fst]
    show ¬ distanceToSegment cexPoint ⟨0.01, 0.01⟩ ⟨0.02, 0⟩ <
      distanceToSegment cexPoint ⟨0.02, 0.02⟩ ⟨0.01, 0.01⟩
    rw [← cex_dAB]
    exact lt_irrefl _
  unfold distanceToPolyline
  rw [cex_segCands, List.foldl_cons, List.foldl_cons, List.foldl_nil, hstepA, hstepAB]

/-- The indexed scan sees the second segment first and keeps it over the
tied first segment. -/
theorem cex_indexed :
    distanceToPolylineWithIndex cexPoint (buildPolylineIndex cexPolyline (0.01 : ℝ)) =
      some (scanVal cexPoint ⟨⟨0.01, 0.01⟩, ⟨0.02, 0⟩, cumDistAt cexPolyline 1⟩) := by
  have hstepB : scanStep cexPoint (maxFloat64, 0, ⟨0, 0⟩)
      ⟨⟨0.01, 0.01⟩, ⟨0.02, 0⟩, cumDistAt cexPolyline 1⟩ =
      scanVal cexPoint ⟨⟨0.01, 0.01⟩, ⟨0.02, 0⟩, cumDistAt cexPolyline 1⟩ :=
    scanStep_of_lt _ _ _ (distanceToSegment_lt_maxFloat64 _ _ _)
  have hstepBA : scanStep cexPoint
      (scanVal cexPoint ⟨⟨0.01, 0.01⟩, ⟨0.02, 0⟩, cumDistAt cexPolyline 1⟩)
      ⟨⟨0.02, 0.02⟩, ⟨0.01, 0.01⟩, cumDistAt cexPolyline 0⟩ =
      scanVal cexPoint ⟨⟨0.01, 0.01⟩, ⟨0.02, 0⟩, cumDistAt cexPolyline 1⟩ := by
    apply scanStep_of_not_lt
    show ¬ distanceToSegment cexPoint ⟨0.02, 0.02⟩ ⟨0.01, 0.01⟩ <
      (scanVal cexPoint ⟨⟨0.01, 0.01⟩, ⟨0.02, 0⟩, cumDistAt cexPolyline 1⟩).1
    rw [scanVal_fst]
    show ¬ distanceToSegment cexPoint ⟨0.02, 0.02⟩ ⟨0.01, 0.01⟩ <
      distanceToSegment cexPoint ⟨0.01, 0.01⟩ ⟨0.02, 0⟩
    rw [cex_dAB]
    exact lt_irrefl _
  rw [cexIndex_some]
  show (if cexIndex.polyline.length < 2 then
      some (distanceToPolyline cexPoint cexIndex.polyline)
    else if gatherCands cexPoint cexIndex = [] then
      some (distanceToPolyline cexPoint cexIndex.polyline)
    else some ((indexedCands cexPoint cexIndex).foldl (scanStep cexPoint)
      (maxFloat64, 0, ⟨0, 0⟩))) =
    some (scanVal cexPoint ⟨⟨0.01, 0.01⟩, ⟨0.02, 0⟩, cumDistAt cexPolyline 1⟩)
  rw [if_neg (by rw [cexIndex_polyline, cex_len]; norm_num),
    if_neg (by rw [cex_gather]; simp), cex_cands,
    List.foldl_cons, List.foldl_cons, List.foldl_nil, hstepB, hstepBA]

theorem cex_val3A :
    (scanVal cexPoint ⟨⟨0.02, 0.02⟩, ⟨0.01, 0.01⟩, (0 : ℝ)⟩).2.2.Longitude = 0.015 := by
  unfold scanVal
  rw [if_neg (by norm_num)]
  norm_num [cexPoint, min_def, max_def]

theorem cex_val3B :
    (scanVal cexPoint ⟨⟨0.01, 0.01⟩, ⟨0.02, 0⟩, cumDistAt cexPolyline 1⟩).2.2.Longitude =
      0.005 := by
  unfold scanVal
  rw [if_neg (by norm_num)]
  norm_num [cexPoint, min_def, max_def]

/-- C9 (counterexample).  For the path (0.02,0.02)-(0.01,0.01)-(0.02,0)
and the query point (0.02,0.01), with the call site's gridSize 0.01, the
indexed query does not return the exhaustive scan's answer: the point is
exactly equidistant from the two segments, the exhaustive scan visits the
first segment first and keeps its projection (0.015,0.015), while the
grid gathers the second segment from an earlier cell and keeps its
projection (0.015,0.005); the scans' strict-improvement test preserves
whichever tied candidate each saw first. -/
theorem indexedQuery_differs :
    distanceToPolylineWithIndex cexPoint (buildPolylineIndex cexPolyline (0.01 : ℝ)) ≠
      some (distanceToPolyline cexPoint cexPolyline) := by
  rw [cex_indexed, cex_exh]
  intro h
  have h2 := Option.some.inj h
  have h3 := congrArg (fun t : ℝ × ℝ × Center => t.2.2.Longitude) h2
  dsimp only at h3
  rw [cex_val3B, cex_val3A] at h3
  norm_num at h3

end PassengerPrincess
